import Mathlib

/-!
# Verification of the entry-turbo block compiler and cooperative runtime

This file is a shallow Lean embedding of the core of the `entryjs-vinnig`
repository: the block-to-generator JIT compiler and the cooperative
scheduler/runtime.  The repository contains two largely duplicate variants
of the design:

* `src/scripts/entry-turbo/src/entry-turbo.js` — the schema-driven
  `TurboCompiler` / `TurboRuntime` ("v2");
* `src/unnamed/part_000` — the standalone `BlockCompiler` /
  `TurboRuntime` / `TurboEntity` ("v1"; the file holds two copies of the
  runtime whose logic for the operations modelled here is identical).

Conventions of the embedding:

* JavaScript strings are modelled either as Lean `String` (where only
  identity matters) or as `List Nat` of UTF-16 code units (where the
  serialized cache key is analysed character by character).
* JavaScript numbers are modelled as `ℚ` where arithmetic matters and as
  `Nat`/`Int` where the source only ever holds integral values.
  Float-specific behaviour (NaN, infinities) is outside the model.
* Generator functions (`async function*`) are modelled as explicit step
  machines: a thread is a resumable piece of data, and one `generator.next()`
  call of the source corresponds to one application of the step function,
  which runs until the next `yield` (a `Susp` value) or the end of the body.
-/

namespace EntryTurbo

/-- A suspension request yielded by a compiled thread:
`{type:'tick'}` or `{type:'wait', duration}` in the source. -/
inductive Susp where
  | tick : Susp
  | wait (durationMs : ℚ) : Susp
  deriving Repr, DecidableEq

/-! ## TurboEntity visual-effect state (part_000 lines 526–536 and 2428–2453)

`setEffect`, `addEffect` and `clearEffects` act on the entity fields
`ghost` and `brightness`.  Both copies of `TurboEntity` in `part_000`
have identical logic; the constructor initialises `ghost = 0` and
`brightness = 0` (lines 420–421 and 2280–2281). -/

/-- The effect-related slice of `TurboEntity` mutable state. -/
structure EffectState where
  ghost : ℚ
  brightness : ℚ
  deriving Repr, DecidableEq

/-- Constructor initial values: `this.ghost = 0; this.brightness = 0;`. -/
def EffectState.init : EffectState := ⟨0, 0⟩

/-- Source `TurboEntity.setEffect(effect, value)`:
ghost is clamped to `[0,100]`, brightness to `[-100,100]`;
any other effect name is ignored. -/
def setEffect (effect : String) (value : ℚ) (s : EffectState) : EffectState :=
  if effect = "ghost" then { s with ghost := max 0 (min 100 value) }
  else if effect = "brightness" then { s with brightness := max (-100) (min 100 value) }
  else s

/-- Source `TurboEntity.addEffect(effect, value)`: like `setEffect` but the
clamped value is the current amount plus `value`. -/
def addEffect (effect : String) (value : ℚ) (s : EffectState) : EffectState :=
  if effect = "ghost" then { s with ghost := max 0 (min 100 (s.ghost + value)) }
  else if effect = "brightness" then
    { s with brightness := max (-100) (min 100 (s.brightness + value)) }
  else s

/-- Source `TurboEntity.clearEffects()`: `this.ghost = 0; this.brightness = 0;`. -/
def clearEffects (_s : EffectState) : EffectState := ⟨0, 0⟩

/-- One call in a sequence of effect mutations. -/
inductive EffectOp where
  | set (effect : String) (value : ℚ)
  | add (effect : String) (value : ℚ)
  | clear
  deriving Repr

/-- Apply one effect operation. -/
def applyEffectOp (s : EffectState) : EffectOp → EffectState
  | .set e v => setEffect e v s
  | .add e v => addEffect e v s
  | .clear => clearEffects s

/-- Apply a whole call sequence, oldest first. -/
def applyEffectOps (s : EffectState) (ops : List EffectOp) : EffectState :=
  ops.foldl applyEffectOp s

/-- The range invariant claimed for the effect amounts. -/
def EffectState.inRange (s : EffectState) : Prop :=
  0 ≤ s.ghost ∧ s.ghost ≤ 100 ∧ -100 ≤ s.brightness ∧ s.brightness ≤ 100

end EntryTurbo

namespace EntryTurbo

theorem effectState_init_inRange : EffectState.init.inRange := by
  refine ⟨le_refl 0, ?_, ?_, ?_⟩ <;> norm_num [EffectState.init]

theorem setEffect_inRange (e : String) (v : ℚ) (s : EffectState)
    (h : s.inRange) : (setEffect e v s).inRange := by
  unfold setEffect
  obtain ⟨h1, h2, h3, h4⟩ := h
  split
  · refine ⟨le_max_left _ _, ?_, h3, h4⟩
    exact max_le (by norm_num) (le_trans (min_le_left _ _) (le_refl _))
  · split
    · refine ⟨h1, h2, le_max_left _ _, ?_⟩
      exact max_le (by norm_num) (min_le_left _ _)
    · exact ⟨h1, h2, h3, h4⟩

theorem addEffect_inRange (e : String) (v : ℚ) (s : EffectState)
    (h : s.inRange) : (addEffect e v s).inRange := by
  unfold addEffect
  obtain ⟨h1, h2, h3, h4⟩ := h
  split
  · refine ⟨le_max_left _ _, ?_, h3, h4⟩
    exact max_le (by norm_num) (min_le_left _ _)
  · split
    · refine ⟨h1, h2, le_max_left _ _, ?_⟩
      exact max_le (by norm_num) (min_le_left _ _)
    · exact ⟨h1, h2, h3, h4⟩

theorem applyEffectOp_inRange (s : EffectState) (op : EffectOp)
    (h : s.inRange) : (applyEffectOp s op).inRange := by
  cases op with
  | set e v => exact setEffect_inRange e v s h
  | add e v => exact addEffect_inRange e v s h
  | clear =>
      refine ⟨le_refl 0, ?_, ?_, ?_⟩ <;> norm_num [applyEffectOp, clearEffects]

theorem applyEffectOps_inRange (s : EffectState) (ops : List EffectOp)
    (h : s.inRange) : (applyEffectOps s ops).inRange := by
  induction ops generalizing s with
  | nil => exact h
  | cons op rest ih =>
      exact ih (applyEffectOp s op) (applyEffectOp_inRange s op h)

/-- Claim C10: For every sequence of `setEffect` / `addEffect` /
`clearEffects` calls with arbitrary (rational-valued) numeric arguments,
starting from the constructor state, the entity's `ghost` amount stays in
`[0, 100]` and its `brightness` amount stays in `[-100, 100]`, and
`clearEffects` restores both amounts to `0`. -/
theorem c10_effect_amounts_clamped (ops : List EffectOp) :
    (applyEffectOps EffectState.init ops).inRange ∧
      ∀ s : EffectState, applyEffectOp s .clear = ⟨0, 0⟩ := by
  refine ⟨applyEffectOps_inRange _ ops effectState_init_inRange, ?_⟩
  intro s
  rfl

end EntryTurbo

namespace EntryTurbo

/-! ## Schema resolver — `TurboCompiler.getParam` (entry-turbo.js lines 106–117)

```js
getParam(block, paramName, schema) {
    if (!schema?.paramsKeyMap) {
        const idx = typeof paramName === 'number' ? paramName : 0;
        return this.compileParamValue(block.params?.[idx]);
    }
    const index = schema.paramsKeyMap[paramName];
    if (index === undefined) return '0';
    return this.compileParamValue(block.params?.[index]);
}
```
`paramName` at the call sites is either a symbolic name (string) or a
positional index (number); `paramsKeyMap` maps symbolic names to indices. -/

/-- A literal parameter slot value of a block, as inspected by
`compileParamValue` (a nested block is kept opaque here; its recursive
compilation is modelled with the expression compiler further below). -/
inductive ParamVal where
  | num (q : ℚ)
  | str (s : String)
  | bool (b : Bool)
  | null
  | nested (blockType : String)
  deriving Repr, DecidableEq

/-- A compiled JavaScript expression text produced for a parameter slot:
`'0'`, `String(number)`, `JSON.stringify(string)`, `String(boolean)`, or
the recursively compiled nested-block expression. -/
inductive ParamCode where
  | zero
  | numLit (q : ℚ)
  | strLit (s : String)
  | boolLit (b : Bool)
  | nestedExpr (blockType : String)
  deriving Repr, DecidableEq

/-- Source `TurboCompiler.compileParamValue` on a possibly-missing slot
(`undefined`/`null` compile to `'0'`). -/
def compileParamValue : Option ParamVal → ParamCode
  | none => .zero
  | some .null => .zero
  | some (.num q) => .numLit q
  | some (.str s) => .strLit s
  | some (.bool b) => .boolLit b
  | some (.nested t) => .nestedExpr t

/-- The `paramsKeyMap` of an `Entry.block` schema: symbolic slot name to
positional index. -/
def ParamsKeyMap := List (String × Nat)

/-- The `paramName` argument: a positional number or a symbolic name. -/
def ParamName := Nat ⊕ String

/-- Object lookup `schema.paramsKeyMap[paramName]`: symbolic names are the
only keys, so a numeric `paramName` never matches. -/
def keyMapLookup (m : ParamsKeyMap) : ParamName → Option Nat
  | .inl _ => none
  | .inr name => List.lookup name m

/-- Source `TurboCompiler.getParam`, over the block's `params` list.
`schema = none` models both a missing schema and a schema without a
`paramsKeyMap` (the source's `!schema?.paramsKeyMap` test). -/
def getParam (schema : Option ParamsKeyMap) (paramName : ParamName)
    (params : List ParamVal) : ParamCode :=
  match schema with
  | none =>
      let idx : Nat := match paramName with | .inl n => n | .inr _ => 0
      compileParamValue (params.get? idx)
  | some keyMap =>
      match keyMapLookup keyMap paramName with
      | none => .zero
      | some index => compileParamValue (params.get? index)

/-- Claim C8: Parameter resolution is a total function (it never throws) such
that: when a schema exists and declares the symbolic name, the
schema-declared index is used; when no schema exists, access degrades to the
positional fallback (the numeric `paramName`, or slot 0 for a symbolic
name); and when a schema exists but does not declare the name, the default
`'0'` is produced. -/
theorem c8_getParam_resolution
    (keyMap : ParamsKeyMap) (name : String) (i : Nat)
    (params : List ParamVal) (pos : Nat)
    (hdecl : keyMapLookup keyMap (Sum.inr name) = some i) :
    getParam (some keyMap) (Sum.inr name) params
        = compileParamValue (params.get? i) ∧
    getParam none (Sum.inl pos) params
        = compileParamValue (params.get? pos) ∧
    getParam none (Sum.inr name) params
        = compileParamValue (params.get? 0) ∧
    (∀ keyMap' : ParamsKeyMap,
      keyMapLookup keyMap' (Sum.inr name) = none →
        getParam (some keyMap') (Sum.inr name) params = .zero) := by
  refine ⟨?_, rfl, rfl, ?_⟩
  · simp [getParam, hdecl]
  · intro keyMap' hnone
    simp [getParam, hnone]

/-- Witness for C8 at a concrete schema and block: the schema of
`repeat_basic`-style blocks declaring `VALUE ↦ 0`, queried for a declared
name, positionally, and for an undeclared name. -/
theorem c8_getParam_resolution_witness :
    keyMapLookup [("VALUE", 0), ("DO", 1)] (Sum.inr "VALUE") = some 0 ∧
    getParam (some [("VALUE", 0), ("DO", 1)]) (Sum.inr "VALUE")
        [.num 7, .str "body"] = .numLit 7 := by
  refine ⟨rfl, ?_⟩
  exact (c8_getParam_resolution [("VALUE", 0), ("DO", 1)] "VALUE" 0
      [.num 7, .str "body"] 0 rfl).1

end EntryTurbo

namespace EntryTurbo

/-! ## Compiled loop bodies

`blockCompilers.repeat_basic` / `repeat_inf` (entry-turbo.js lines 241–260)
generate

```js
for (let _i = 0, _max = Math.floor(count); _i < _max; _i++) { BODY yield { type: 'tick' }; }
while (true) { BODY yield { type: 'tick' }; }
```

while `BlockCompiler.compileRepeat` / `compileRepeatInf` (part_000 lines
182–191) generate

```js
for (let _i = 0; _i < count; _i++) { if (++_loopCount > 100000) { yield { type: 'tick' }; _loopCount = 0; } BODY }
while (true) { if (++_loopCount > 1000) { yield { type: 'tick' }; _loopCount = 0; } BODY }
```

A loop body that contains no suspension is embedded as a pure state
transformer `body : S → S`; executing such a body never yields, so one
`generator.next()` runs the generated code up to the next explicit
`yield`.  The executions below return the final state together with the
ordered list of suspensions the generator yields. -/

/-- Execution of the v2 `repeat_basic` loop compiled with iteration count
`n` (`_max = Math.floor(count)`) and a suspension-free body: each
iteration runs the body and then yields one tick. -/
def repeatBasicRunV2 {S : Type} (body : S → S) : Nat → S → S × List Susp
  | 0, s => (s, [])
  | n + 1, s =>
      let s' := body s
      let r := repeatBasicRunV2 body n s'
      (r.1, .tick :: r.2)

/-- Execution of the v1 `repeat_basic` loop compiled with count `n`,
starting with shared loop counter `_loopCount = c`: each iteration first
increments the counter, yields a tick only when it exceeds 100000 (then
resets it), and then runs the body.  Returns the final state, the final
counter, and the yielded suspensions. -/
def repeatBasicRunV1 {S : Type} (body : S → S) : Nat → Nat → S → S × Nat × List Susp
  | 0, c, s => (s, c, [])
  | n + 1, c, s =>
      if c + 1 > 100000 then
        let s' := body s
        let r := repeatBasicRunV1 body n 0 s'
        (r.1, r.2.1, .tick :: r.2.2)
      else
        let s' := body s
        repeatBasicRunV1 body n (c + 1) s'

/-- One resumption of the v1 `repeat_inf` generator taken from the top of
the loop with counter value `c`: it runs body iterations until the
counter check forces the next `yield {type:'tick'}`, returning how many
body iterations ran and the state at the yield (`none` when the fuel is
exhausted first). -/
def repeatInfRunV1 {S : Type} (body : S → S) : Nat → Nat → S → Option (Nat × S)
  | 0, _, _ => none
  | fuel + 1, c, s =>
      if c + 1 > 1000 then some (0, s)
      else
        match repeatInfRunV1 body fuel (c + 1) (body s) with
        | some r => some (r.1 + 1, r.2)
        | none => none

/-- One resumption of the v1 `repeat_inf` generator taken at the yield
point: the generator resumes inside the guard, resets `_loopCount` to 0,
runs the body of that iteration, and continues from the loop top. -/
def repeatInfResumeV1 {S : Type} (body : S → S) (fuel : Nat) (s : S) :
    Option (Nat × S) :=
  match repeatInfRunV1 body fuel 0 (body s) with
  | some r => some (r.1 + 1, r.2)
  | none => none

/-- One resumption of the v2 `repeat_inf` generator (`while (true) { BODY
yield tick }`) taken at the yield point: exactly one body iteration runs
before the next yield. -/
def repeatInfResumeV2 {S : Type} (body : S → S) (s : S) : Nat × S :=
  (1, body s)

theorem repeatBasicRunV2_eq {S : Type} (body : S → S) :
    ∀ (n : Nat) (s : S),
      repeatBasicRunV2 body n s = (body^[n] s, List.replicate n Susp.tick) := by
  intro n
  induction n with
  | zero => intro s; rfl
  | succ n ih =>
      intro s
      simp [repeatBasicRunV2, ih (body s), List.replicate_succ,
        Function.iterate_succ_apply]

theorem repeatBasicRunV1_no_tick {S : Type} (body : S → S) :
    ∀ (n c : Nat) (s : S), n + c ≤ 100000 →
      repeatBasicRunV1 body n c s = (body^[n] s, c + n, []) := by
  intro n
  induction n with
  | zero => intro c s _; rfl
  | succ n ih =>
      intro c s h
      have hc : ¬ c + 1 > 100000 := by omega
      rw [repeatBasicRunV1, if_neg hc, ih (c + 1) (body s) (by omega),
        Function.iterate_succ_apply]
      have hcn : c + 1 + n = c + (n + 1) := by omega
      rw [hcn]

/-- Claim C1, amended: A bounded repeat compiled with count `N` and a
suspension-free body executes the body exactly `N` times under both
compilers.  Under the schema-driven v2 compiler the generated loop yields
exactly one tick per iteration (so `N` ticks for `N` iterations); under
the v1 `BlockCompiler` a tick is yielded only when the shared iteration
counter exceeds 100000, so as long as the counter plus `N` stays within
100000 the loop yields no suspension at all. -/
theorem c1_repeat_basic_iterations {S : Type} (body : S → S) (n c : Nat)
    (s : S) (hc : n + c ≤ 100000) :
    repeatBasicRunV2 body n s = (body^[n] s, List.replicate n Susp.tick) ∧
    repeatBasicRunV1 body n c s = (body^[n] s, c + n, []) := by
  exact ⟨repeatBasicRunV2_eq body n s, repeatBasicRunV1_no_tick body n c s hc⟩

/-- Witness for C1 at `N = 3` on a concrete state: the v2 loop yields
three ticks and increments the state three times; the v1 loop yields
nothing. -/
theorem c1_repeat_basic_iterations_witness :
    (3 + 0 ≤ 100000) ∧
    repeatBasicRunV2 (fun k : Nat => k + 1) 3 10
        = (13, List.replicate 3 Susp.tick) ∧
    repeatBasicRunV1 (fun k : Nat => k + 1) 3 0 10 = (13, 0 + 3, []) := by
  refine ⟨by norm_num, ?_⟩
  have h := c1_repeat_basic_iterations (fun k : Nat => k + 1) 3 0 10 (by norm_num)
  simpa using h

/-- Claim C1 counterexample: Under the v1 `BlockCompiler` (part_000 lines
182–186), a bounded repeat with count `N = 2` and a suspension-free body
yields zero tick suspensions, not at least `N = 2`: the generated guard
`if (++_loopCount > 100000)` fires only every 100000 iterations. -/
theorem c1_repeat_basic_counterexample :
    (List.count Susp.tick
        (repeatBasicRunV1 (fun s : Unit => s) 2 0 ()).2.2 = 0) ∧ ¬ (2 ≤ 0) := by
  constructor
  · rfl
  · omega

end EntryTurbo

namespace EntryTurbo

theorem repeatInfRunV1_eq {S : Type} (body : S → S) :
    ∀ (fuel c : Nat) (s : S), c ≤ 1000 → 1001 - c ≤ fuel →
      repeatInfRunV1 body fuel c s = some (1000 - c, body^[1000 - c] s) := by
  intro fuel
  induction fuel with
  | zero => intro c s hc hf; omega
  | succ fuel ih =>
      intro c s hc hf
      by_cases h : c + 1 > 1000
      · have hc1000 : c = 1000 := by omega
        subst hc1000
        simp [repeatInfRunV1]
      · have hlt : c < 1000 := by omega
        rw [repeatInfRunV1, if_neg h,
          ih (c + 1) (body s) (by omega) (by omega)]
        have h1 : 1000 - (c + 1) + 1 = 1000 - c := by omega
        have h2 : body^[1000 - (c + 1)] (body s) = body^[1000 - c] s := by
          have hit := Function.iterate_succ_apply body (1000 - (c + 1)) s
          have hs : (1000 - (c + 1)).succ = 1000 - c := by omega
          rw [← hit, hs]
        rw [h2]
        show some (1000 - (c + 1) + 1, body^[1000 - c] s)
            = some (1000 - c, body^[1000 - c] s)
        rw [h1]

/-- Claim C2, amended: A compiled unbounded loop whose body contains no
suspension always reaches a suspension request within a bounded number of
body iterations in a single resumption — it can never run forever within
one scheduler step.  Under the v1 `BlockCompiler` the bound is 1001
iterations for a resumption taken at the yield point (and `1000 - c`
iterations from the loop top with counter `c`, so exactly 1000 for the
initial resumption of the thread); under the v2 compiler every resumption
runs exactly one body iteration before yielding. -/
theorem c2_repeat_inf_budget {S : Type} (body : S → S)
    (c fuel fuel' : Nat) (s s' : S)
    (hc : c ≤ 1000) (hf : 1001 - c ≤ fuel) (hf' : 1002 ≤ fuel') :
    repeatInfRunV1 body fuel c s = some (1000 - c, body^[1000 - c] s) ∧
    repeatInfResumeV1 body fuel' s' = some (1001, body^[1001] s') ∧
    repeatInfResumeV2 body s' = (1, body s') := by
  refine ⟨repeatInfRunV1_eq body fuel c s hc hf, ?_, rfl⟩
  rw [repeatInfResumeV1,
    repeatInfRunV1_eq body fuel' 0 (body s') (by omega) (by omega)]
  have h2 : body^[1000 - 0] (body s') = body^[1001] s' := by
    have hit := Function.iterate_succ_apply body 1000 s'
    have hs : Nat.succ 1000 = 1001 := by omega
    rw [Nat.sub_zero, ← hit, hs]
  rw [h2]

/-- Witness for C2: the initial resumption of the v1 unbounded loop over
`Nat.succ` executes exactly 1000 body iterations before its first yield,
and a later resumption executes 1001. -/
theorem c2_repeat_inf_budget_witness :
    ((0 : Nat) ≤ 1000 ∧ 1001 - 0 ≤ 1001 ∧ 1002 ≤ 1002) ∧
    repeatInfRunV1 Nat.succ 1001 0 0 = some (1000 - 0, Nat.succ^[1000 - 0] 0) ∧
    repeatInfResumeV1 Nat.succ 1002 5 = some (1001, Nat.succ^[1001] 5) ∧
    repeatInfResumeV2 Nat.succ 5 = (1, Nat.succ 5) :=
  ⟨by omega, c2_repeat_inf_budget Nat.succ 0 1001 1002 0 5
    (by omega) (by omega) (by omega)⟩

/-- Claim C2 counterexample: A single resumption of the v1 compiled
unbounded loop taken at its yield point executes 1001 body iterations
before the next suspension request — more than the fixed budget of 1000
iterations stated by the claim (the guard `if (++_loopCount > 1000)` runs
before the body, so the reset iteration plus 1000 counted iterations all
execute between two yields). -/
theorem c2_repeat_inf_counterexample :
    repeatInfResumeV1 (fun s : Unit => s) 1002 () = some (1001, ()) ∧
      1000 < 1001 := by
  constructor
  · rw [repeatInfResumeV1,
      repeatInfRunV1_eq (fun s : Unit => s) 1002 0 () (by omega) (by omega)]
  · omega

end EntryTurbo

namespace EntryTurbo

/-! ## TurboRuntime — scheduler, events, clones, stop (part_000)

The embedding below follows the second (class-based) `TurboRuntime` of
`part_000` (constructor at line 1547, `startExecutor` 1783–1790,
`updateExecutors` 1880–1918, `broadcastAndWait` 1997–2006, `createClone`
2013–2038, `stop` 1810–1840) together with `TurboEntity`
(`saveInitialState`/`reset`, `clone`).  The first runtime copy in the
same file (its `stop` at 752–761, `broadcastAndWait` at 820–824,
`createClone` at 826–831, `reset` at 460–467) has the same logic for
every operation modelled here, except that it has no
`pendingExecutors` buffer at all.

A compiled generator is embedded as a `TC` program; one `generator.next()`
is one `runStep`, which executes non-yielding actions (variable writes,
`runtime.broadcast`, `runtime.createClone`) until the generated code
reaches a `yield` or the end of the body. -/

/-- The `initialState` snapshot captured by `TurboEntity.saveInitialState`. -/
structure Snapshot where
  x : ℚ
  y : ℚ
  rotation : ℚ
  direction : ℚ
  scaleX : ℚ
  scaleY : ℚ
  visible : Bool
  ghost : ℚ
  brightness : ℚ
  currentCostumeIndex : Nat
  deriving Repr, DecidableEq

/-- The mutable visual state of a `TurboEntity`.  The constructor always
calls `saveInitialState()`, so `initialState` is modelled as always
present.  The static costume catalog is represented by its length, which
is all `setCostume`'s bounds check reads. -/
structure Entity where
  id : String
  isClone : Bool
  x : ℚ
  y : ℚ
  rotation : ℚ
  direction : ℚ
  scaleX : ℚ
  scaleY : ℚ
  size : ℚ
  visible : Bool
  ghost : ℚ
  brightness : ℚ
  currentCostumeIndex : Nat
  costumesLen : Nat
  penDown : Bool
  dialog : Option String
  initialState : Snapshot
  deriving Repr, DecidableEq

/-- Source `TurboEntity.setCostume(index)`: only applies an in-range index. -/
def Entity.setCostume (e : Entity) (index : Nat) : Entity :=
  if index < e.costumesLen then { e with currentCostumeIndex := index } else e

/-- Source `TurboEntity.reset()` (part_000 lines 460–467): restore every
snapshot field (`Object.assign(this, this.initialState)` followed by
`setCostume`), then clear the pen and dialog state. -/
def Entity.reset (e : Entity) : Entity :=
  let i := e.initialState
  let e1 : Entity :=
    { e with
      x := i.x, y := i.y, rotation := i.rotation, direction := i.direction,
      scaleX := i.scaleX, scaleY := i.scaleY, visible := i.visible,
      ghost := i.ghost, brightness := i.brightness,
      currentCostumeIndex := i.currentCostumeIndex }
  let e2 := e1.setCostume i.currentCostumeIndex
  { e2 with penDown := false, dialog := none }

/-- The default snapshot captured when a `TurboEntity` is constructed
without entity data, as happens for the fresh object built by
`TurboEntity.clone()`. -/
def defaultSnapshot : Snapshot :=
  ⟨0, 0, 0, 90, 1, 1, true, 0, 0, 0⟩

/-- Source `TurboEntity.clone()`: a fresh entity (default-constructed, hence the
default snapshot) whose listed mutable fields are then copied from the
template; the timestamp suffix of the generated id is elided. -/
def Entity.cloneOf (e : Entity) : Entity :=
  { id := e.id ++ "_clone", isClone := true,
    x := e.x, y := e.y, rotation := e.rotation, direction := e.direction,
    scaleX := e.scaleX, scaleY := e.scaleY, size := e.size,
    visible := e.visible, ghost := e.ghost, brightness := e.brightness,
    currentCostumeIndex := e.currentCostumeIndex, costumesLen := e.costumesLen,
    penDown := false, dialog := none, initialState := defaultSnapshot }

/-- Compiled generator code, embedded as a resumable program.  Each
constructor is one piece of generated code: an explicit `yield`, a
non-yielding runtime/variable action followed by the rest of the thread,
or the end of the generator body.  `bwLoop` is the suspended state of the
`broadcastAndWait` while-loop, remembering the captured
`executorsBefore` count. -/
inductive TC where
  | done
  | tickThen (k : TC)
  | waitThen (durationMs : ℚ) (k : TC)
  | setVarThen (id : String) (v : Int) (k : TC)
  | bcastThen (msg : String) (k : TC)
  | bcastWaitThen (msg : String) (k : TC)
  | bwLoop (before : Nat) (k : TC)
  | createCloneThen (target : String) (k : TC)
  deriving Repr, DecidableEq

/-- A live executor: `{ entity, generator, waitUntil }`. -/
structure Executor where
  entityId : String
  code : TC
  waitUntil : ℚ
  deriving Repr, DecidableEq

/-- A registered event listener: the owning entity and its compiled
thread. -/
structure Listener where
  entityId : String
  code : TC
  deriving Repr, DecidableEq

/-- The runtime state: live/pending executors, primaries, clones, the
event registry, the variable store, active sounds (by count), and the
module-level `BlockCompiler.cache` (an association from serialized cache
keys to compiled-artifact identities), which no runtime operation below
ever writes. -/
structure RS where
  running : Bool
  executors : List Executor
  pendingExecutors : List Executor
  entities : List Entity
  clones : List Entity
  eventListeners : List (String × List Listener)
  vars : List (String × Int)
  activeSounds : Nat
  compilerCache : List (String × Nat)
  deriving Repr, DecidableEq

/-- Lookup `objects.get(id)` / entity lookup by id among primaries and clones. -/
def RS.findEntity (st : RS) (id : String) : Option Entity :=
  (st.entities ++ st.clones).find? (fun e => e.id = id)

/-- Lookup `objects.get(id)`: the `objects` map holds the primaries. -/
def RS.findObject (st : RS) (id : String) : Option Entity :=
  st.entities.find? (fun e => e.id = id)

/-- Assignment `vars['x'] = v` on the shared variable store. -/
def RS.setVar (st : RS) (x : String) (v : Int) : RS :=
  { st with vars :=
      if st.vars.any (fun p => p.1 = x)
      then st.vars.map (fun p => if p.1 = x then (x, v) else p)
      else st.vars ++ [(x, v)] }

/-- Source `TurboRuntime.startExecutor(entity, compiledFn)` (part_000 lines
1783–1790): pushes the new executor directly onto `this.executors` with
`waitUntil = 0`.  (It does **not** go through `pendingExecutors`.) -/
def RS.startExecutor (st : RS) (entityId : String) (code : TC) : RS :=
  { st with executors := st.executors ++ [⟨entityId, code, 0⟩] }

/-- Source `TurboRuntime.fireEvent('message', msg)`: start one executor per
listener registered under `message_<msg>` whose owning entity is
currently visible. -/
def RS.fireMessage (st : RS) (msg : String) : RS :=
  match st.eventListeners.lookup ("message_" ++ msg) with
  | none => st
  | some ls =>
      ls.foldl
        (fun acc l =>
          match acc.findEntity l.entityId with
          | some e => if e.visible then acc.startExecutor l.entityId l.code else acc
          | none => acc)
        st

/-- Source `TurboRuntime.createClone(targetId)` (part_000 lines 2013–2038):
a `'self'` target is unsupported (early return), a missing template or a
clone population at the cap of 360 silently refuses, otherwise the
template is cloned, registered, and the `'clone'` listeners whose owning
entity is the template start an executor bound to the new clone. -/
def RS.createClone (st : RS) (targetId : String) : RS :=
  if targetId = "self" then st
  else
    match st.findObject targetId with
    | none => st
    | some target =>
        if st.clones.length ≥ 360 then st
        else
          let clone := target.cloneOf
          let st1 := { st with clones := st.clones ++ [clone] }
          match st1.eventListeners.lookup "clone" with
          | none => st1
          | some ls =>
              ls.foldl
                (fun acc l =>
                  if l.entityId = target.id
                  then acc.startExecutor clone.id l.code
                  else acc)
                st1

/-- One `generator.next()`: run the compiled code from its resumption
point until the next `yield` (returning the suspension and the remaining
code) or the end of the body (returning `none`).  `bcastWaitThen` embeds
`yield* broadcastAndWait(msg)` (part_000 lines 1997–2006): capture
`executorsBefore = this.executors.length`, broadcast, then yield a tick
as long as `this.executors.length > executorsBefore`. -/
def runStep (st : RS) : TC → RS × Option Susp × TC
  | .done => (st, none, .done)
  | .tickThen k => (st, some .tick, k)
  | .waitThen d k => (st, some (.wait d), k)
  | .setVarThen x v k => runStep (st.setVar x v) k
  | .bcastThen m k => runStep (st.fireMessage m) k
  | .bcastWaitThen m k =>
      let before := st.executors.length
      let st' := st.fireMessage m
      if st'.executors.length > before then (st', some .tick, .bwLoop before k)
      else runStep st' k
  | .bwLoop before k =>
      if st.executors.length > before then (st, some .tick, .bwLoop before k)
      else runStep st k
  | .createCloneThen t k => runStep (st.createClone t) k

/-- Replace executor `i`'s resumption point and wake-up time after a
step. -/
def RS.updExec (st : RS) (i : Nat) (code : TC) (waitUntil : ℚ) : RS :=
  let ex' : Executor :=
    match st.executors.get? i with
    | some ex => { ex with code := code, waitUntil := waitUntil }
    | none => ⟨"", code, waitUntil⟩
  { st with executors := st.executors.set i ex' }

/-- The scan loop of `TurboRuntime.updateExecutors` (part_000 lines
1880–1911): `for (let i = 0; i < this.executors.length; i++)`, where the
length is re-read every iteration, so executors appended during the pass
are visited by the same pass.  Skips executors whose `waitUntil` has not
elapsed, otherwise steps them once and interprets the suspension request;
completed executor indices are collected.  `fuel` bounds the loop for
totality (a broadcast storm can make the source pass arbitrarily long). -/
def passLoop (now : ℚ) : Nat → Nat → RS → List Nat → RS × List Nat
  | 0, _, st, comp => (st, comp)
  | fuel + 1, i, st, comp =>
      match st.executors.get? i with
      | none => (st, comp)
      | some ex =>
          if ex.waitUntil > now then passLoop now fuel (i + 1) st comp
          else
            let r := runStep st ex.code
            match r.2.1 with
            | none => passLoop now fuel (i + 1)
                (r.1.updExec i r.2.2 ex.waitUntil) (comp ++ [i])
            | some .tick => passLoop now fuel (i + 1)
                (r.1.updExec i r.2.2 ex.waitUntil) comp
            | some (.wait d) => passLoop now fuel (i + 1)
                (r.1.updExec i r.2.2 (now + d)) comp

/-- Remove the recorded completed indices (the source splices them in
descending order, which deletes exactly the elements at those original
positions). -/
def removeIndices (xs : List Executor) (idxs : List Nat) : List Executor :=
  (xs.enum.filter (fun p => ¬ p.1 ∈ idxs)).map (fun p => p.2)

/-- Source `TurboRuntime.updateExecutors(now)` (part_000 lines 1880–1918): scan
pass, removal of completed executors after the pass, then flushing of
`pendingExecutors` into the live set. -/
def updateExecutors (fuel : Nat) (now : ℚ) (st : RS) : RS :=
  let r := passLoop now fuel 0 st []
  { r.1 with
    executors := removeIndices r.1.executors r.2 ++ r.1.pendingExecutors,
    pendingExecutors := [] }

/-- Source `TurboRuntime.stop()` (part_000 lines 752–761 and 1810–1840): stop
the loop, discard all executors (and the pending buffer in the
class-based copy), destroy and discard all clones, stop sounds, and reset
every primary entity to its snapshot.  The module-level
`BlockCompiler.cache` is not touched. -/
def stopRT (st : RS) : RS :=
  { st with
    running := false,
    executors := [],
    pendingExecutors := [],
    clones := [],
    activeSounds := 0,
    entities := st.entities.map Entity.reset }

end EntryTurbo

namespace EntryTurbo

theorem createClone_at_cap (st : RS) (targetId : String)
    (hcap : st.clones.length ≥ 360) : st.createClone targetId = st := by
  unfold RS.createClone
  by_cases hs : targetId = "self"
  · simp [hs]
  · simp only [if_neg hs]
    cases h : st.findObject targetId with
    | none => rfl
    | some target => simp [if_pos hcap]

/-- Claim C6: Whenever the live clone count has reached the population cap
of 360, `createClone` silently refuses: the runtime state — entities,
clones, executors, event registry, variables — is returned unchanged, so
no clone is created and no on-clone-start executor is started, and no
error is raised (the operation is total). -/
theorem c6_clone_cap_silent_refusal (st : RS) (targetId : String)
    (hcap : st.clones.length ≥ 360) :
    st.createClone targetId = st ∧
    (st.createClone targetId).clones.length = st.clones.length ∧
    (st.createClone targetId).executors = st.executors := by
  have h := createClone_at_cap st targetId hcap
  exact ⟨h, by rw [h], by rw [h]⟩

/-- A concrete primary entity used by the runtime scenarios below. -/
def entA : Entity :=
  { id := "objA", isClone := false, x := 0, y := 0, rotation := 0,
    direction := 90, scaleX := 1, scaleY := 1, size := 100, visible := true,
    ghost := 0, brightness := 0, currentCostumeIndex := 0, costumesLen := 1,
    penDown := false, dialog := none, initialState := defaultSnapshot }

/-- A second concrete primary entity. -/
def entB : Entity := { entA with id := "objB" }

/-- A third concrete primary entity (the broadcast-listener template). -/
def entS : Entity := { entA with id := "objS" }

/-- A runtime state whose clone population is exactly at the cap. -/
def capState : RS :=
  { running := true, executors := [], pendingExecutors := [],
    entities := [entA], clones := List.replicate 360 entA.cloneOf,
    eventListeners := [("clone", [⟨"objA", .tickThen .done⟩])],
    vars := [], activeSounds := 0, compilerCache := [] }

theorem capState_clones_len : capState.clones.length = 360 := by
  show (List.replicate 360 entA.cloneOf).length = 360
  rw [List.length_replicate]

/-- Witness for C6: the 361st clone request on a state holding 360 live
clones (with an on-clone-start listener registered for the template)
leaves the state untouched. -/
theorem c6_clone_cap_silent_refusal_witness :
    capState.clones.length ≥ 360 ∧ capState.createClone "objA" = capState :=
  ⟨le_of_eq capState_clones_len.symm,
    (c6_clone_cap_silent_refusal capState "objA"
      (le_of_eq capState_clones_len.symm)).1⟩

theorem reset_matches_snapshot (e : Entity) :
    e.reset.x = e.initialState.x ∧ e.reset.y = e.initialState.y ∧
    e.reset.rotation = e.initialState.rotation ∧
    e.reset.visible = e.initialState.visible ∧
    e.reset.currentCostumeIndex = e.initialState.currentCostumeIndex ∧
    e.reset.initialState = e.initialState := by
  unfold Entity.reset Entity.setCostume
  by_cases h : e.initialState.currentCostumeIndex < e.costumesLen <;> simp [h]

/-- Claim C7, amended: After `TurboRuntime.stop()`, every primary entity's
position, rotation, visibility and costume index equal its recorded
initial snapshot, the live clone set is empty, and the live (and pending)
executor sets are empty; the compilation cache, however, is **not**
cleared by the runtime stop — `stop()` never touches
`BlockCompiler.cache` (in the repository, a cache clear happens only in
the v2 injection adapter's `toggleStop` hook, entry-turbo.js lines
1370–1376). -/
theorem c7_stop_resets_world (st : RS) :
    (stopRT st).executors = [] ∧
    (stopRT st).pendingExecutors = [] ∧
    (stopRT st).clones = [] ∧
    (stopRT st).entities = st.entities.map Entity.reset ∧
    (∀ e ∈ st.entities,
      e.reset.x = e.initialState.x ∧ e.reset.y = e.initialState.y ∧
      e.reset.rotation = e.initialState.rotation ∧
      e.reset.visible = e.initialState.visible ∧
      e.reset.currentCostumeIndex = e.initialState.currentCostumeIndex) ∧
    (stopRT st).compilerCache = st.compilerCache := by
  refine ⟨rfl, rfl, rfl, rfl, ?_, rfl⟩
  intro e _
  have h := reset_matches_snapshot e
  exact ⟨h.1, h.2.1, h.2.2.1, h.2.2.2.1, h.2.2.2.2.1⟩

/-- A runtime state with a live executor, a live clone and a non-empty
compilation cache. -/
def preStopState : RS :=
  { running := true, executors := [⟨"objA", .tickThen .done, 0⟩],
    pendingExecutors := [], entities := [entA], clones := [entA.cloneOf],
    eventListeners := [], vars := [], activeSounds := 1,
    compilerCache := [("[]", 0)] }

/-- Claim C7 counterexample: On a state whose compilation cache holds an
artifact, `stop()` leaves the cache exactly as it was — non-empty — so
the claim's conjunct "the compilation cache is cleared" is false of the
runtime stop. -/
theorem c7_stop_cache_not_cleared :
    (stopRT preStopState).compilerCache = [("[]", 0)] ∧
      ((stopRT preStopState).compilerCache ≠ []) := by
  refine ⟨rfl, ?_⟩
  rw [show (stopRT preStopState).compilerCache = [("[]", 0)] from rfl]
  simp

end EntryTurbo

namespace EntryTurbo

/-- Executor A's thread for the C4 scenario: `message_cast('go')` followed
by a variable write, then the end of the thread. -/
def c4CodeA : TC := .bcastThen "go" (.setVarThen "aDone" 1 .done)

/-- The `when_message_cast('go')` listener thread for the C4 scenario: a
single visible variable write. -/
def c4CodeS : TC := .setVarThen "spawned" 1 .done

/-- The C4 scenario state: one live executor about to broadcast, and a
listener registered for the message on a visible entity. -/
def c4State : RS :=
  { running := true, executors := [⟨"objA", c4CodeA, 0⟩],
    pendingExecutors := [], entities := [entA, entS], clones := [],
    eventListeners := [("message_go", [⟨"objS", c4CodeS⟩])],
    vars := [], activeSounds := 0, compilerCache := [] }

/-- Claim C4, failing execution: `startExecutor` pushes a spawned executor
directly onto `this.executors`, and the `updateExecutors` scan re-reads
the live length every iteration, so the executor spawned by the broadcast
is stepped *within the same pass*: after a single `updateExecutors` call
its variable write is already visible and it has already completed and
been removed — contradicting the claim that mid-pass spawns only become
eligible at the next tick.  (`pendingExecutors` exists and is flushed at
the end of the pass, but nothing ever writes to it.) -/
theorem c4_spawned_executor_runs_same_pass :
    (updateExecutors 10 1 c4State).vars.lookup "spawned" = some 1 ∧
    (updateExecutors 10 1 c4State).executors = [] := by
  exact ⟨rfl, rfl⟩

end EntryTurbo

namespace EntryTurbo

/-- Executor A's thread for the C3 scenario:
`yield* broadcastAndWait('go')`, then a variable write marking that A was
resumed past the wait. -/
def c3CodeA : TC := .bcastWaitThen "go" (.setVarThen "resumed" 1 .done)

/-- The `when_message_cast('go')` listener thread for the C3 scenario: a
long-running thread that yields three ticks before finishing. -/
def c3CodeS : TC := .tickThen (.tickThen (.tickThen .done))

/-- The C3 scenario state: executor A about to `broadcastAndWait('go')`,
an unrelated pre-existing executor B that finishes on its first step, and
a listener for `'go'` on the visible entity `objS`. -/
def c3State : RS :=
  { running := true,
    executors := [⟨"objA", c3CodeA, 0⟩, ⟨"objB", .done, 0⟩],
    pendingExecutors := [], entities := [entA, entB, entS], clones := [],
    eventListeners := [("message_go", [⟨"objS", c3CodeS⟩])],
    vars := [], activeSounds := 0, compilerCache := [] }

/-- The C3 scenario after two scheduler ticks. -/
def c3After : RS := updateExecutors 10 2 (updateExecutors 10 1 c3State)

/-- Claim C3, failing execution: `broadcastAndWait` compares the live
executor *count* against the pre-broadcast count instead of tracking the
spawned set: during the first tick, A's broadcast spawns S (live count
3 > 2, so A suspends) and the unrelated executor B completes and is
removed (count back to 2).  On the second tick A's wait condition
`executors.length > executorsBefore` is already false, so A resumes and
runs its continuation — its `resumed` write is visible — while the
executor S spawned by A's own broadcast is still live (it still has two
ticks to yield).  This contradicts the claim that A is not resumed until
every executor spawned by the broadcast reaches a terminal state. -/
theorem c3_broadcast_wait_resumes_early :
    c3After.vars.lookup "resumed" = some 1 ∧
    c3After.executors = [⟨"objS", .tickThen .done, 0⟩] ∧
    (TC.tickThen .done) ≠ .done := by
  refine ⟨rfl, rfl, ?_⟩
  intro h
  cases h

end EntryTurbo

namespace EntryTurbo

/-! ## Compiler dispatch and fallback — `TurboCompiler.compileBlock` /
`compileFallback` / `compileExpression` (entry-turbo.js lines 68–208)

`compileBlock` looks the block type up in the `blockCompilers` table,
then tries the dynamic `func_…` compiler, then the dynamic
`stringParam_…` / `booleanParam_…` parameter reference, and otherwise
emits the fallback fragment
`console.warn('[TurboCompiler] Unsupported block skipped:', type)` —
a diagnostic-only statement.  `compileExpression` handles literal value
blocks and the same dynamic prefixes, consults `expressionCompilers`, and
for an unknown type warns and returns `'0'`.

The `blockCompilers` / `expressionCompilers` tables below model a
representative subset of the source tables (the entries are compiled here
through the positional-access path of `getParam`; schemas are orthogonal
to this claim).  The fallback paths are modelled exactly. -/

/-- A statement-position block: type tag and ordered params.  (The
modelled table entries take no statement bodies; loop compilation is
analysed separately above.) -/
structure VBlock where
  type : String
  params : List ParamVal
  deriving Repr, DecidableEq

/-- An expression-position block. -/
structure ExprBlock where
  type : String
  params : List ParamVal
  deriving Repr, DecidableEq

/-- JavaScript's `type.startsWith(prefix)` (kernel-computable form). -/
def strStartsWith (s pre : String) : Bool := pre.data.isPrefixOf s.data

/-- A compiled expression fragment. -/
inductive JsExpr where
  | zeroLit                      -- the literal '0'
  | numLit (q : ℚ)
  | strLit (s : String)
  | timerValue                   -- runtime.getTimer()
  | answerValue                  -- runtime.getAnswer()
  | getFuncParam (t : String)    -- runtime.getFunctionParam(entity, t)
  | callFuncValue (id : String)  -- yield* runtime.callFunctionValue(id, …)
  deriving Repr, DecidableEq

/-- A compiled statement fragment. -/
inductive JsStmt where
  | skip                              -- '' (blocks rejected before dispatch)
  | warnUnsupported (t : String)      -- the compileFallback fragment
  | yieldWait (sec : JsExpr)          -- wait_second
  | setX (v : JsExpr)                 -- locate_x
  | changeX (v : JsExpr)              -- move_x
  | showStmt                          -- show
  | hideStmt                          -- hide
  | broadcastStmt (msg : String)      -- message_cast
  | callFunc (id : String)            -- yield* runtime.callFunction(id, …)
  | exprStmt (e : JsExpr)             -- a bare compiled expression
  deriving Repr, DecidableEq

/-- Conversion `String(value)` on a literal parameter, for the `number`/`text`/
`angle` value blocks. -/
def paramValString : ParamVal → String
  | .num q => toString q
  | .str s => s
  | .bool b => if b then "true" else "false"
  | .null => "null"
  | .nested _ => "[object Object]"

/-- The modelled subset of the `expressionCompilers` table. -/
def expressionCompilers (e : ExprBlock) : Option JsExpr :=
  match e.type with
  | "get_project_timer_value" => some .timerValue
  | "get_canvas_input_value" => some .answerValue
  | _ => none

/-- Source `TurboCompiler.compileExpression` (entry-turbo.js lines 143–183):
literal value blocks compile to themselves, dynamic parameter/function
blocks to runtime lookups, table entries to their fragments, and any
unknown expression type to the neutral `'0'` (after a
`console.warn('Unknown expression', type)` diagnostic). -/
def compileExpression (e : ExprBlock) : JsExpr :=
  if e.type = "number" ∨ e.type = "text" ∨ e.type = "angle" then
    match e.params.get? 0 with
    | none => .zeroLit
    | some .null => .zeroLit
    | some (.num q) => .numLit q
    | some v => .strLit (paramValString v)
  else if strStartsWith e.type "stringParam_" ∨ strStartsWith e.type "booleanParam_" then
    .getFuncParam e.type
  else if strStartsWith e.type "func_" then
    .callFuncValue (e.type.drop 5)
  else
    match expressionCompilers e with
    | some c => c
    | none => .zeroLit

/-- The modelled subset of the `blockCompilers` statement table. -/
def blockCompilers (b : VBlock) : Option JsStmt :=
  match b.type with
  | "wait_second" => some (.yieldWait (match compileParamValue (b.params.get? 0) with
      | .zero => .zeroLit
      | .numLit q => .numLit q
      | .strLit s => .strLit s
      | .boolLit bv => .strLit (if bv then "true" else "false")
      | .nestedExpr _ => .zeroLit))
  | "locate_x" => some (.setX (match compileParamValue (b.params.get? 0) with
      | .numLit q => .numLit q
      | _ => .zeroLit))
  | "move_x" => some (.changeX (match compileParamValue (b.params.get? 0) with
      | .numLit q => .numLit q
      | _ => .zeroLit))
  | "show" => some .showStmt
  | "hide" => some .hideStmt
  | "message_cast" => some (.broadcastStmt (match b.params.get? 0 with
      | some (.str s) => s
      | _ => ""))
  | _ => none

/-- Source `TurboCompiler.compileBlock` (entry-turbo.js lines 68–100): table
lookup, then the dynamic `func_…` compiler, then the dynamic parameter
reference, and otherwise `compileFallback` (lines 205–208), which
produces the diagnostic-only `console.warn` fragment. -/
def compileBlock (b : VBlock) : JsStmt :=
  if b.type = "" then .skip
  else
    match blockCompilers b with
    | some code => code
    | none =>
        if strStartsWith b.type "func_" then .callFunc (b.type.drop 5)
        else if strStartsWith b.type "stringParam_"
            ∨ strStartsWith b.type "booleanParam_" then
          .exprStmt (.getFuncParam b.type)
        else .warnUnsupported b.type

/-- Source `TurboCompiler.compileBlocks`: compile each block of the list; the
source joins the non-empty fragments (`filter(Boolean)`). -/
def compileBlocks (blocks : List VBlock) : List JsStmt :=
  (blocks.map compileBlock).filter (fun c => c ≠ .skip)

/-- The state a compiled fragment can read and mutate: the target
entity's position and visibility, and the scheduler-visible list of
messages broadcast so far. -/
structure VMState where
  x : ℚ
  visible : Bool
  fired : List String
  deriving Repr, DecidableEq

/-- Numeric evaluation of a compiled expression (literals only; runtime
lookups evaluate against the fixed values supplied here as zero — they
read, never write, so they play no role in the mutation claim). -/
def evalExpr : JsExpr → ℚ
  | .zeroLit => 0
  | .numLit q => q
  | .strLit _ => 0
  | .timerValue => 0
  | .answerValue => 0
  | .getFuncParam _ => 0
  | .callFuncValue _ => 0

/-- Execution of one compiled statement fragment: the resulting state and
the suspensions it yields.  `warnUnsupported` only writes a console
diagnostic, so it leaves the state untouched and yields nothing.
(`callFunc` is the call-and-wait suspension; the called procedure's own
body is a separate fragment outside this one.) -/
def execStmt (s : VMState) : JsStmt → VMState × List Susp
  | .skip => (s, [])
  | .warnUnsupported _ => (s, [])
  | .yieldWait sec => (s, [.wait (evalExpr sec * 1000)])
  | .setX v => ({ s with x := evalExpr v }, [])
  | .changeX v => ({ s with x := s.x + evalExpr v }, [])
  | .showStmt => ({ s with visible := true }, [])
  | .hideStmt => ({ s with visible := false }, [])
  | .broadcastStmt m => ({ s with fired := s.fired ++ [m] }, [])
  | .callFunc _ => (s, [.tick])
  | .exprStmt _ => (s, [])

end EntryTurbo

namespace EntryTurbo

/-- Claim C9: A statement block whose type has no compiler rule (no table
entry, no dynamic `func_`/`stringParam_`/`booleanParam_` form) compiles
— without any possibility of throwing, `compileBlock` being total — to
the diagnostic-only `console.warn` fragment, which mutates no entity,
variable, list or scheduler state and yields no suspension when run;
compilation of the surrounding block list is not aborted (every other
block still compiles to its own fragment); and an unknown
expression-position type compiles to the neutral numeric zero `'0'`. -/
theorem c9_unknown_block_is_harmless (b : VBlock)
    (hnone : blockCompilers b = none)
    (hfunc : ¬ strStartsWith b.type "func_")
    (hsp : ¬ strStartsWith b.type "stringParam_")
    (hbp : ¬ strStartsWith b.type "booleanParam_")
    (hne : b.type ≠ "") :
    compileBlock b = .warnUnsupported b.type ∧
    (∀ s : VMState, execStmt s (.warnUnsupported b.type) = (s, [])) ∧
    (∀ pre post : List VBlock,
      compileBlocks (pre ++ b :: post)
        = compileBlocks pre ++ .warnUnsupported b.type :: compileBlocks post) ∧
    (∀ e : ExprBlock,
      ¬ (e.type = "number" ∨ e.type = "text" ∨ e.type = "angle") →
      ¬ strStartsWith e.type "stringParam_" →
      ¬ strStartsWith e.type "booleanParam_" →
      ¬ strStartsWith e.type "func_" →
      expressionCompilers e = none →
      compileExpression e = .zeroLit) := by
  have hcb : compileBlock b = .warnUnsupported b.type := by
    unfold compileBlock
    rw [if_neg hne, hnone]
    rw [if_neg hfunc, if_neg (by intro h; cases h with
      | inl h => exact hsp h
      | inr h => exact hbp h)]
  refine ⟨hcb, fun s => rfl, ?_, ?_⟩
  · intro pre post
    unfold compileBlocks
    rw [List.map_append, List.map_cons, List.filter_append, hcb]
    have : (JsStmt.warnUnsupported b.type :: List.map compileBlock post).filter
        (fun c => c ≠ .skip)
        = JsStmt.warnUnsupported b.type
            :: (List.map compileBlock post).filter (fun c => c ≠ .skip) := by
      rw [List.filter_cons]
      simp
    rw [this]
  · intro e hlit hsp' hbp' hfunc' hnone'
    unfold compileExpression
    rw [if_neg hlit, if_neg (by intro h; cases h with
      | inl h => exact hsp' h
      | inr h => exact hbp' h), if_neg hfunc', hnone']

/-- Witness for C9 on a concrete unknown block and unknown expression
type: `"brush_stamp_beta"` has no compiler rule, and the whole
surrounding program still compiles around its warn fragment. -/
theorem c9_unknown_block_is_harmless_witness :
    compileBlock ⟨"brush_stamp_beta", [.num 3]⟩
        = .warnUnsupported "brush_stamp_beta" ∧
    execStmt ⟨0, true, []⟩ (.warnUnsupported "brush_stamp_beta")
        = (⟨0, true, []⟩, []) ∧
    compileBlocks [⟨"show", []⟩, ⟨"brush_stamp_beta", [.num 3]⟩, ⟨"hide", []⟩]
        = [.showStmt, .warnUnsupported "brush_stamp_beta", .hideStmt] ∧
    compileExpression ⟨"quantum_flux_value", []⟩ = .zeroLit := by
  have h := c9_unknown_block_is_harmless ⟨"brush_stamp_beta", [.num 3]⟩
    (by rfl) (by decide) (by decide) (by decide) (by decide)
  refine ⟨h.1, h.2.1 ⟨0, true, []⟩, ?_, ?_⟩
  · have h3 := h.2.2.1 [⟨"show", []⟩] [⟨"hide", []⟩]
    rw [show ([⟨"show", []⟩] : List VBlock) ++ ⟨"brush_stamp_beta", [.num 3]⟩
        :: [⟨"hide", []⟩]
        = [⟨"show", []⟩, ⟨"brush_stamp_beta", [.num 3]⟩, ⟨"hide", []⟩] from rfl]
      at h3
    rw [h3]
    rfl
  · exact h.2.2.2 ⟨"quantum_flux_value", []⟩ (by decide) (by decide) (by decide)
      (by decide) (by rfl)

end EntryTurbo


/-! ## Compilation cache — `TurboCompiler.compileThread` (entry-turbo.js lines 25–56)

```js
compileThread(blocks, objectId) {
    const cacheKey = JSON.stringify(blocks) + objectId;
    if (this.cache.has(cacheKey)) { return this.cache.get(cacheKey); }
    ...
    const fn = new Function(code)();
    this.cache.set(cacheKey, fn);
    return fn;
}
```

The embedding below models a thread (`blocks`) as a tree of block nodes —
`{ type, params, statements }`, where a param slot holds a JSON literal or
a nested block and `statements` is a list of block lists — with strings as
lists of UTF-16 code units.  `JSON.stringify` is embedded as the code-unit
encoders `encBlock`/`encBlocks`/… (fixed object key order
`type, params, statements`; string escaping of `"` (34) and `\x5c` (92) by a
backslash; decimal integer numerals — numeric params are modelled as
integers, and the control-character escapes of full JSON are elided, which
affects neither the shape nor the injectivity of the encoding).  The
compiled artifact returned by `new Function(...)()` is a fresh object on
every actual compilation, modelled by a fresh identity drawn from a
counter; reference equality of artifacts is equality of these identities.
The prefix-code lemmas (`…_pc`) establish that the serialization is
self-delimiting, hence injective, which is what makes the concatenated
cache key a faithful structural fingerprint. -/

namespace EntryTurbo

mutual
inductive TBlock where
  | mk (type : List Nat) (params : TParams) (statements : TStmts)
  deriving DecidableEq
inductive TParam where
  | pnum (i : Int)
  | pstr (s : List Nat)
  | pbool (b : Bool)
  | pnull
  | pblock (b : TBlock)
  deriving DecidableEq
inductive TParams where
  | nil
  | cons (p : TParam) (ps : TParams)
  deriving DecidableEq
inductive TBlocks where
  | nil
  | cons (b : TBlock) (bs : TBlocks)
  deriving DecidableEq
inductive TStmts where
  | nil
  | cons (bs : TBlocks) (ss : TStmts)
  deriving DecidableEq
end

def isDigit (d : Nat) : Bool := 48 ≤ d && d ≤ 57

def digitStart : List Nat → Bool
  | [] => false
  | d :: _ => isDigit d

def escapeCU : List Nat → List Nat
  | [] => []
  | c :: rest =>
      if c = 34 || c = 92 then 92 :: c :: escapeCU rest
      else c :: escapeCU rest

def encStrCU (s : List Nat) : List Nat := 34 :: (escapeCU s ++ [34])

def encNatCU (n : Nat) : List Nat :=
  if n = 0 then [48] else ((Nat.digits 10 n).reverse.map (fun d => d + 48))

def encIntCU (i : Int) : List Nat :=
  if i < 0 then 45 :: encNatCU i.natAbs else encNatCU i.natAbs

theorem escape_pc : ∀ (s1 s2 r1 r2 : List Nat),
    escapeCU s1 ++ 34 :: r1 = escapeCU s2 ++ 34 :: r2 → s1 = s2 ∧ r1 = r2 := by
  intro s1
  induction s1 with
  | nil =>
      intro s2 r1 r2 h
      cases s2 with
      | nil =>
          simp [escapeCU] at h
          exact ⟨rfl, h⟩
      | cons c rest =>
          by_cases hc : c = 34 ∨ c = 92
          · have : escapeCU (c :: rest) = 92 :: c :: escapeCU rest := by
              simp [escapeCU]
              omega
            rw [this] at h
            simp [escapeCU] at h
          · have : escapeCU (c :: rest) = c :: escapeCU rest := by
              simp [escapeCU]
              omega
            rw [this] at h
            simp [escapeCU] at h
            omega
  | cons c rest ih =>
      intro s2 r1 r2 h
      cases s2 with
      | nil =>
          by_cases hc : c = 34 ∨ c = 92
          · have : escapeCU (c :: rest) = 92 :: c :: escapeCU rest := by
              simp [escapeCU]; omega
            rw [this] at h
            simp [escapeCU] at h
          · have : escapeCU (c :: rest) = c :: escapeCU rest := by
              simp [escapeCU]; omega
            rw [this] at h
            simp [escapeCU] at h
            omega
      | cons c2 rest2 =>
          by_cases hc : c = 34 ∨ c = 92 <;> by_cases hc2 : c2 = 34 ∨ c2 = 92
          · have e1 : escapeCU (c :: rest) = 92 :: c :: escapeCU rest := by
              simp [escapeCU]; omega
            have e2 : escapeCU (c2 :: rest2) = 92 :: c2 :: escapeCU rest2 := by
              simp [escapeCU]; omega
            rw [e1, e2] at h
            simp only [List.cons_append, List.cons.injEq] at h
            obtain ⟨-, hcc, htail⟩ := h
            obtain ⟨hs, hr⟩ := ih rest2 r1 r2 htail
            exact ⟨by rw [hcc, hs], hr⟩
          · have e1 : escapeCU (c :: rest) = 92 :: c :: escapeCU rest := by
              simp [escapeCU]; omega
            have e2 : escapeCU (c2 :: rest2) = c2 :: escapeCU rest2 := by
              simp [escapeCU]; omega
            rw [e1, e2] at h
            simp only [List.cons_append, List.cons.injEq] at h
            omega
          · have e1 : escapeCU (c :: rest) = c :: escapeCU rest := by
              simp [escapeCU]; omega
            have e2 : escapeCU (c2 :: rest2) = 92 :: c2 :: escapeCU rest2 := by
              simp [escapeCU]; omega
            rw [e1, e2] at h
            simp only [List.cons_append, List.cons.injEq] at h
            omega
          · have e1 : escapeCU (c :: rest) = c :: escapeCU rest := by
              simp [escapeCU]; omega
            have e2 : escapeCU (c2 :: rest2) = c2 :: escapeCU rest2 := by
              simp [escapeCU]; omega
            rw [e1, e2] at h
            simp only [List.cons_append, List.cons.injEq] at h
            obtain ⟨hcc, htail⟩ := h
            obtain ⟨hs, hr⟩ := ih rest2 r1 r2 htail
            exact ⟨by rw [hcc, hs], hr⟩

end EntryTurbo

namespace EntryTurbo

theorem encNatCU_allDigits (n : Nat) : ∀ d ∈ encNatCU n, isDigit d = true := by
  intro d hd
  unfold encNatCU at hd
  split at hd
  · simp at hd
    simp [hd, isDigit]
  · simp only [List.mem_map, List.mem_reverse] at hd
    obtain ⟨a, ha, rfl⟩ := hd
    have := Nat.digits_lt_base (b := 10) (by norm_num) ha
    simp [isDigit]
    omega

theorem encNatCU_ne_nil (n : Nat) : encNatCU n ≠ [] := by
  unfold encNatCU
  split
  · simp
  · simp only [ne_eq, List.map_eq_nil_iff, List.reverse_eq_nil_iff]
    exact Nat.digits_ne_nil_iff_ne_zero.mpr (by assumption)

theorem digits_eq_zero_of_enc_eq_48 {n : Nat} (hn : n ≠ 0)
    (h : List.map (fun d => d + 48) (Nat.digits 10 n).reverse = [48]) :
    False := by
  have hlen : (Nat.digits 10 n).length = 1 := by
    have := congrArg List.length h
    simpa using this
  obtain ⟨d, hd⟩ := List.length_eq_one.mp hlen
  rw [hd] at h
  simp at h
  have hof := Nat.ofDigits_digits 10 n
  rw [hd, h] at hof
  simp [Nat.ofDigits] at hof
  exact hn hof.symm

theorem encNatCU_inj (n1 n2 : Nat) (h : encNatCU n1 = encNatCU n2) : n1 = n2 := by
  unfold encNatCU at h
  by_cases h1 : n1 = 0 <;> by_cases h2 : n2 = 0
  · omega
  · rw [if_pos h1, if_neg h2] at h
    exact absurd h.symm (fun hh => digits_eq_zero_of_enc_eq_48 h2 hh)
  · rw [if_neg h1, if_pos h2] at h
    exact absurd h (fun hh => digits_eq_zero_of_enc_eq_48 h1 hh)
  · rw [if_neg h1, if_neg h2] at h
    have hrev := List.map_injective_iff.mpr (add_left_injective 48) h
    have hdig : Nat.digits 10 n1 = Nat.digits 10 n2 := by
      have := congrArg List.reverse hrev
      simpa using this
    exact Nat.digits_inj_iff.mp hdig

theorem digits_pc : ∀ (ds1 ds2 r1 r2 : List Nat),
    (∀ d ∈ ds1, isDigit d = true) → (∀ d ∈ ds2, isDigit d = true) →
    digitStart r1 = false → digitStart r2 = false →
    ds1 ++ r1 = ds2 ++ r2 → ds1 = ds2 ∧ r1 = r2 := by
  intro ds1
  induction ds1 with
  | nil =>
      intro ds2 r1 r2 _ hd2 hr1 _ h
      cases ds2 with
      | nil => exact ⟨rfl, h⟩
      | cons d rest =>
          simp only [List.nil_append, List.cons_append] at h
          rw [h] at hr1
          have := hd2 d (by simp)
          simp [digitStart, this] at hr1
  | cons d rest ih =>
      intro ds2 r1 r2 hd1 hd2 hr1 hr2 h
      cases ds2 with
      | nil =>
          simp only [List.cons_append, List.nil_append] at h
          rw [← h] at hr2
          have := hd1 d (by simp)
          simp [digitStart, this] at hr2
      | cons d2 rest2 =>
          simp only [List.cons_append, List.cons.injEq] at h
          obtain ⟨hdd, htail⟩ := h
          obtain ⟨hs, hr⟩ := ih rest2 r1 r2
            (fun x hx => hd1 x (by simp [hx])) (fun x hx => hd2 x (by simp [hx]))
            hr1 hr2 htail
          exact ⟨by rw [hdd, hs], hr⟩

theorem encIntCU_head (i : Int) :
    ∃ h t, encIntCU i = h :: t ∧ (h = 45 ∨ isDigit h = true) := by
  unfold encIntCU
  split
  · exact ⟨45, encNatCU i.natAbs, rfl, Or.inl rfl⟩
  · obtain ⟨h, t, hht⟩ : ∃ h t, encNatCU i.natAbs = h :: t := by
      cases henc : encNatCU i.natAbs with
      | nil => exact absurd henc (encNatCU_ne_nil _)
      | cons h t => exact ⟨h, t, rfl⟩
    refine ⟨h, t, hht, Or.inr ?_⟩
    exact encNatCU_allDigits i.natAbs h (by rw [hht]; simp)

theorem encIntCU_pc (i1 i2 : Int) (r1 r2 : List Nat)
    (hr1 : digitStart r1 = false) (hr2 : digitStart r2 = false)
    (h : encIntCU i1 ++ r1 = encIntCU i2 ++ r2) : i1 = i2 ∧ r1 = r2 := by
  unfold encIntCU at h
  by_cases h1 : i1 < 0 <;> by_cases h2 : i2 < 0
  · rw [if_pos h1, if_pos h2] at h
    simp only [List.cons_append, List.cons.injEq] at h
    obtain ⟨hn, hr⟩ := digits_pc _ _ _ _ (encNatCU_allDigits _)
      (encNatCU_allDigits _) hr1 hr2 h.2
    have := encNatCU_inj _ _ hn
    constructor
    · omega
    · exact hr
  · rw [if_pos h1, if_neg h2] at h
    obtain ⟨hh, ht, hht, hcase⟩ := encIntCU_head i2
    rw [show encIntCU i2 = if i2 < 0 then 45 :: encNatCU i2.natAbs
        else encNatCU i2.natAbs from rfl, if_neg h2] at hht
    rw [hht] at h
    simp only [List.cons_append, List.cons.injEq] at h
    have hdig : isDigit hh = true := by
      cases hcase with
      | inl hc =>
          exfalso
          rw [hc] at hht
          have := encNatCU_allDigits i2.natAbs 45 (by rw [hht]; simp)
          simp [isDigit] at this
      | inr hc => exact hc
    rw [← h.1] at hdig
    simp [isDigit] at hdig
  · rw [if_neg h1, if_pos h2] at h
    obtain ⟨hh, ht, hht, hcase⟩ := encIntCU_head i1
    rw [show encIntCU i1 = if i1 < 0 then 45 :: encNatCU i1.natAbs
        else encNatCU i1.natAbs from rfl, if_neg h1] at hht
    rw [hht] at h
    simp only [List.cons_append, List.cons.injEq] at h
    have hdig : isDigit hh = true := by
      cases hcase with
      | inl hc =>
          exfalso
          rw [hc] at hht
          have := encNatCU_allDigits i1.natAbs 45 (by rw [hht]; simp)
          simp [isDigit] at this
      | inr hc => exact hc
    rw [h.1] at hdig
    simp [isDigit] at hdig
  · rw [if_neg h1, if_neg h2] at h
    obtain ⟨hn, hr⟩ := digits_pc _ _ _ _ (encNatCU_allDigits _)
      (encNatCU_allDigits _) hr1 hr2 h
    have := encNatCU_inj _ _ hn
    constructor
    · omega
    · exact hr

end EntryTurbo

namespace EntryTurbo

def keyType : List Nat := [34, 116, 121, 112, 101, 34, 58]

def keyParams : List Nat := [34, 112, 97, 114, 97, 109, 115, 34, 58]

def keyStatements : List Nat :=
  [34, 115, 116, 97, 116, 101, 109, 101, 110, 116, 115, 34, 58]

def litTrue : List Nat := [116, 114, 117, 101]

def litFalse : List Nat := [102, 97, 108, 115, 101]

def litNull : List Nat := [110, 117, 108, 108]

mutual
def encBlock : TBlock → List Nat
  | .mk t ps ss =>
      123 :: (keyType ++ (encStrCU t ++ (44 :: (keyParams ++ (encParams ps
        ++ (44 :: (keyStatements ++ (encStmts ss ++ [125]))))))))
def encParam : TParam → List Nat
  | .pnum i => encIntCU i
  | .pstr s => encStrCU s
  | .pbool true => litTrue
  | .pbool false => litFalse
  | .pnull => litNull
  | .pblock b => encBlock b
def encParams : TParams → List Nat
  | .nil => [91, 93]
  | .cons p ps => 91 :: (encParam p ++ encParamsRest ps)
def encParamsRest : TParams → List Nat
  | .nil => [93]
  | .cons p ps => 44 :: (encParam p ++ encParamsRest ps)
def encBlocks : TBlocks → List Nat
  | .nil => [91, 93]
  | .cons b bs => 91 :: (encBlock b ++ encBlocksRest bs)
def encBlocksRest : TBlocks → List Nat
  | .nil => [93]
  | .cons b bs => 44 :: (encBlock b ++ encBlocksRest bs)
def encStmts : TStmts → List Nat
  | .nil => [91, 93]
  | .cons bs ss => 91 :: (encBlocks bs ++ encStmtsRest ss)
def encStmtsRest : TStmts → List Nat
  | .nil => [93]
  | .cons bs ss => 44 :: (encBlocks bs ++ encStmtsRest ss)
end

theorem digitStart_encParamsRest (ps : TParams) (r : List Nat) :
    digitStart (encParamsRest ps ++ r) = false := by
  cases ps <;> simp [encParamsRest, digitStart, isDigit]

end EntryTurbo

namespace EntryTurbo

theorem encIntCU_append_head (i : Int) (r : List Nat) :
    ∃ h t, encIntCU i ++ r = h :: t ∧ (h = 45 ∨ isDigit h = true) := by
  obtain ⟨h, t, hht, hcase⟩ := encIntCU_head i
  exact ⟨h, t ++ r, by rw [hht]; rfl, hcase⟩

theorem encParam_head (p : TParam) :
    ∃ h t, encParam p = h :: t ∧
      (h = 45 ∨ isDigit h = true ∨ h = 34 ∨ h = 116 ∨ h = 102 ∨ h = 110
        ∨ h = 123) := by
  cases p with
  | pnum i =>
      obtain ⟨h, t, hht, hc⟩ := encIntCU_head i
      exact ⟨h, t, hht, by tauto⟩
  | pstr s => exact ⟨34, escapeCU s ++ [34], rfl, by tauto⟩
  | pbool b =>
      cases b
      · exact ⟨102, [97, 108, 115, 101], rfl, by tauto⟩
      · exact ⟨116, [114, 117, 101], rfl, by tauto⟩
  | pnull => exact ⟨110, [117, 108, 108], rfl, by tauto⟩
  | pblock b =>
      cases b with
      | mk t ps ss =>
          exact ⟨123, keyType ++ (encStrCU t ++ (44 :: (keyParams
            ++ (encParams ps ++ (44 :: (keyStatements
              ++ (encStmts ss ++ [125]))))))), rfl, by tauto⟩

theorem encParam_append_head (p : TParam) (r : List Nat) :
    ∃ h t, encParam p ++ r = h :: t ∧
      (h = 45 ∨ isDigit h = true ∨ h = 34 ∨ h = 116 ∨ h = 102 ∨ h = 110
        ∨ h = 123) := by
  obtain ⟨h, t, hht, hc⟩ := encParam_head p
  exact ⟨h, t ++ r, by rw [hht]; rfl, hc⟩

mutual

theorem encBlock_pc (b1 b2 : TBlock) (r1 r2 : List Nat)
    (h : encBlock b1 ++ r1 = encBlock b2 ++ r2) : b1 = b2 ∧ r1 = r2 := by
  cases b1 with
  | mk t1 ps1 ss1 =>
  cases b2 with
  | mk t2 ps2 ss2 =>
  simp only [encBlock, keyType, keyParams, keyStatements, encStrCU,
    List.cons_append, List.append_assoc, List.nil_append,
    List.cons.injEq, true_and] at h
  obtain ⟨ht, hR⟩ := escape_pc t1 t2 _ _ h
  simp only [List.cons.injEq, true_and] at hR
  obtain ⟨hps, hS⟩ := encParams_pc ps1 ps2 _ _ hR
  simp only [List.cons.injEq, true_and] at hS
  obtain ⟨hss, hr⟩ := encStmts_pc ss1 ss2 _ _ hS
  simp only [List.cons.injEq, true_and] at hr
  exact ⟨by rw [ht, hps, hss], hr⟩

theorem encParam_pc (p1 p2 : TParam) (r1 r2 : List Nat)
    (hr1 : digitStart r1 = false) (hr2 : digitStart r2 = false)
    (h : encParam p1 ++ r1 = encParam p2 ++ r2) : p1 = p2 ∧ r1 = r2 := by
  cases p1 with
  | pnum i1 =>
      cases p2 with
      | pnum i2 =>
          simp only [encParam] at h
          obtain ⟨hi, hr⟩ := encIntCU_pc i1 i2 r1 r2 hr1 hr2 h
          exact ⟨by rw [hi], hr⟩
      | pstr s2 =>
          obtain ⟨hh, ht, hform, hcase⟩ := encIntCU_append_head i1 r1
          simp only [encParam, encStrCU, List.cons_append, List.append_assoc] at h
          rw [hform] at h
          simp only [List.cons.injEq] at h
          simp [isDigit] at hcase
          omega
      | pbool b2 =>
          obtain ⟨hh, ht, hform, hcase⟩ := encIntCU_append_head i1 r1
          cases b2 <;>
            · simp only [encParam, litTrue, litFalse, List.cons_append] at h
              rw [hform] at h
              simp only [List.cons.injEq] at h
              simp [isDigit] at hcase
              omega
      | pnull =>
          obtain ⟨hh, ht, hform, hcase⟩ := encIntCU_append_head i1 r1
          simp only [encParam, litNull] at h
          rw [hform] at h
          simp only [List.cons_append, List.cons.injEq] at h
          simp [isDigit] at hcase
          omega
      | pblock b2 =>
          obtain ⟨hh, ht, hform, hcase⟩ := encIntCU_append_head i1 r1
          cases b2 with
          | mk t2 ps2 ss2 =>
              simp only [encParam, encBlock, List.cons_append] at h
              rw [hform] at h
              simp only [List.cons.injEq] at h
              simp [isDigit] at hcase
              omega
  | pstr s1 =>
      cases p2 with
      | pnum i2 =>
          obtain ⟨hh, ht, hform, hcase⟩ := encIntCU_append_head i2 r2
          simp only [encParam, encStrCU, List.cons_append, List.append_assoc] at h
          rw [hform] at h
          simp only [List.cons.injEq] at h
          simp [isDigit] at hcase
          omega
      | pstr s2 =>
          simp only [encParam, encStrCU, List.cons_append, List.append_assoc,
            List.cons.injEq, true_and] at h
          obtain ⟨hs, hr⟩ := escape_pc s1 s2 _ _ h
          exact ⟨by rw [hs], hr⟩
      | pbool b2 =>
          cases b2 <;>
            simp [encParam, encStrCU, litTrue, litFalse] at h
      | pnull =>
          simp [encParam, encStrCU, litNull] at h
      | pblock b2 =>
          cases b2 with
          | mk t2 ps2 ss2 =>
              simp [encParam, encStrCU, encBlock] at h
  | pbool b1 =>
      cases p2 with
      | pnum i2 =>
          obtain ⟨hh, ht, hform, hcase⟩ := encIntCU_append_head i2 r2
          cases b1 <;>
            · simp only [encParam, litTrue, litFalse, List.cons_append] at h
              rw [hform] at h
              simp only [List.cons.injEq] at h
              simp [isDigit] at hcase
              omega
      | pstr s2 =>
          cases b1 <;>
            simp [encParam, encStrCU, litTrue, litFalse] at h
      | pbool b2 =>
          cases b1 <;> cases b2
          · simp only [encParam, litFalse, List.cons_append,
              List.cons.injEq, true_and] at h
            exact ⟨rfl, h⟩
          · simp [encParam, litTrue, litFalse] at h
          · simp [encParam, litTrue, litFalse] at h
          · simp only [encParam, litTrue, List.cons_append,
              List.cons.injEq, true_and] at h
            exact ⟨rfl, h⟩
      | pnull =>
          cases b1 <;> simp [encParam, litTrue, litFalse, litNull] at h
      | pblock b2 =>
          cases b2 with
          | mk t2 ps2 ss2 =>
              cases b1 <;>
                simp [encParam, litTrue, litFalse, encBlock] at h
  | pnull =>
      cases p2 with
      | pnum i2 =>
          obtain ⟨hh, ht, hform, hcase⟩ := encIntCU_append_head i2 r2
          simp only [encParam, litNull] at h
          rw [hform] at h
          simp only [List.cons_append, List.cons.injEq] at h
          simp [isDigit] at hcase
          omega
      | pstr s2 =>
          simp [encParam, encStrCU, litNull] at h
      | pbool b2 =>
          cases b2 <;> simp [encParam, litTrue, litFalse, litNull] at h
      | pnull =>
          simp only [encParam, litNull, List.cons_append, List.cons.injEq,
            List.nil_append, true_and] at h
          exact ⟨rfl, h⟩
      | pblock b2 =>
          cases b2 with
          | mk t2 ps2 ss2 =>
              simp [encParam, litNull, encBlock] at h
  | pblock b1 =>
      cases p2 with
      | pnum i2 =>
          obtain ⟨hh, ht, hform, hcase⟩ := encIntCU_append_head i2 r2
          cases b1 with
          | mk t1 ps1 ss1 =>
              simp only [encParam, encBlock, List.cons_append] at h
              rw [hform] at h
              simp only [List.cons.injEq] at h
              simp [isDigit] at hcase
              omega
      | pstr s2 =>
          cases b1 with
          | mk t1 ps1 ss1 =>
              simp [encParam, encStrCU, encBlock] at h
      | pbool b2 =>
          cases b1 with
          | mk t1 ps1 ss1 =>
              cases b2 <;>
                simp [encParam, litTrue, litFalse, encBlock] at h
      | pnull =>
          cases b1 with
          | mk t1 ps1 ss1 =>
              simp [encParam, litNull, encBlock] at h
      | pblock b2 =>
          simp only [encParam] at h
          obtain ⟨hb, hr⟩ := encBlock_pc b1 b2 r1 r2 h
          exact ⟨by rw [hb], hr⟩

theorem encParams_pc (ps1 ps2 : TParams) (r1 r2 : List Nat)
    (h : encParams ps1 ++ r1 = encParams ps2 ++ r2) : ps1 = ps2 ∧ r1 = r2 := by
  cases ps1 with
  | nil =>
      cases ps2 with
      | nil =>
          simp only [encParams, List.cons_append, List.nil_append,
            List.cons.injEq, true_and] at h
          exact ⟨rfl, h⟩
      | cons p2 ps2' =>
          obtain ⟨hh, ht, hform, hcase⟩ := encParam_append_head p2
            (encParamsRest ps2' ++ r2)
          simp only [encParams, List.cons_append, List.nil_append,
            List.append_assoc, List.cons.injEq, true_and] at h
          rw [hform] at h
          simp only [List.cons.injEq] at h
          simp [isDigit] at hcase
          omega
  | cons p1 ps1' =>
      cases ps2 with
      | nil =>
          obtain ⟨hh, ht, hform, hcase⟩ := encParam_append_head p1
            (encParamsRest ps1' ++ r1)
          simp only [encParams, List.cons_append, List.nil_append,
            List.append_assoc, List.cons.injEq, true_and] at h
          rw [hform] at h
          simp only [List.cons.injEq] at h
          simp [isDigit] at hcase
          omega
      | cons p2 ps2' =>
          simp only [encParams, List.cons_append, List.append_assoc,
            List.cons.injEq, true_and] at h
          obtain ⟨hp, hrest⟩ := encParam_pc p1 p2 _ _
            (digitStart_encParamsRest ps1' r1)
            (digitStart_encParamsRest ps2' r2) h
          obtain ⟨hps, hr⟩ := encParamsRest_pc ps1' ps2' r1 r2 hrest
          exact ⟨by rw [hp, hps], hr⟩

theorem encParamsRest_pc (ps1 ps2 : TParams) (r1 r2 : List Nat)
    (h : encParamsRest ps1 ++ r1 = encParamsRest ps2 ++ r2) :
    ps1 = ps2 ∧ r1 = r2 := by
  cases ps1 with
  | nil =>
      cases ps2 with
      | nil =>
          simp only [encParamsRest, List.cons_append, List.nil_append,
            List.cons.injEq, true_and] at h
          exact ⟨rfl, h⟩
      | cons p2 ps2' =>
          simp only [encParamsRest, List.cons_append, List.nil_append,
            List.append_assoc, List.cons.injEq] at h
          omega
  | cons p1 ps1' =>
      cases ps2 with
      | nil =>
          simp only [encParamsRest, List.cons_append, List.nil_append,
            List.append_assoc, List.cons.injEq] at h
          omega
      | cons p2 ps2' =>
          simp only [encParamsRest, List.cons_append, List.append_assoc,
            List.cons.injEq, true_and] at h
          obtain ⟨hp, hrest⟩ := encParam_pc p1 p2 _ _
            (digitStart_encParamsRest ps1' r1)
            (digitStart_encParamsRest ps2' r2) h
          obtain ⟨hps, hr⟩ := encParamsRest_pc ps1' ps2' r1 r2 hrest
          exact ⟨by rw [hp, hps], hr⟩

theorem encBlocks_pc (bs1 bs2 : TBlocks) (r1 r2 : List Nat)
    (h : encBlocks bs1 ++ r1 = encBlocks bs2 ++ r2) : bs1 = bs2 ∧ r1 = r2 := by
  cases bs1 with
  | nil =>
      cases bs2 with
      | nil =>
          simp only [encBlocks, List.cons_append, List.nil_append,
            List.cons.injEq, true_and] at h
          exact ⟨rfl, h⟩
      | cons b2 bs2' =>
          cases b2 with
          | mk t2 ps2 ss2 =>
              simp [encBlocks, encBlock] at h
  | cons b1 bs1' =>
      cases bs2 with
      | nil =>
          cases b1 with
          | mk t1 ps1 ss1 =>
              simp [encBlocks, encBlock] at h
      | cons b2 bs2' =>
          simp only [encBlocks, List.cons_append, List.append_assoc,
            List.cons.injEq, true_and] at h
          obtain ⟨hb, hrest⟩ := encBlock_pc b1 b2 _ _ h
          obtain ⟨hbs, hr⟩ := encBlocksRest_pc bs1' bs2' r1 r2 hrest
          exact ⟨by rw [hb, hbs], hr⟩

theorem encBlocksRest_pc (bs1 bs2 : TBlocks) (r1 r2 : List Nat)
    (h : encBlocksRest bs1 ++ r1 = encBlocksRest bs2 ++ r2) :
    bs1 = bs2 ∧ r1 = r2 := by
  cases bs1 with
  | nil =>
      cases bs2 with
      | nil =>
          simp only [encBlocksRest, List.cons_append, List.nil_append,
            List.cons.injEq, true_and] at h
          exact ⟨rfl, h⟩
      | cons b2 bs2' =>
          simp only [encBlocksRest, List.cons_append, List.nil_append,
            List.append_assoc, List.cons.injEq] at h
          omega
  | cons b1 bs1' =>
      cases bs2 with
      | nil =>
          simp only [encBlocksRest, List.cons_append, List.nil_append,
            List.append_assoc, List.cons.injEq] at h
          omega
      | cons b2 bs2' =>
          simp only [encBlocksRest, List.cons_append, List.append_assoc,
            List.cons.injEq, true_and] at h
          obtain ⟨hb, hrest⟩ := encBlock_pc b1 b2 _ _ h
          obtain ⟨hbs, hr⟩ := encBlocksRest_pc bs1' bs2' r1 r2 hrest
          exact ⟨by rw [hb, hbs], hr⟩

theorem encStmts_pc (ss1 ss2 : TStmts) (r1 r2 : List Nat)
    (h : encStmts ss1 ++ r1 = encStmts ss2 ++ r2) : ss1 = ss2 ∧ r1 = r2 := by
  cases ss1 with
  | nil =>
      cases ss2 with
      | nil =>
          simp only [encStmts, List.cons_append, List.nil_append,
            List.cons.injEq, true_and] at h
          exact ⟨rfl, h⟩
      | cons bs2 ss2' =>
          cases bs2 with
          | nil => simp [encStmts, encBlocks] at h
          | cons b2 bs2' =>
              cases b2 with
              | mk t2 ps2 ss2'' =>
                  simp [encStmts, encBlocks, encBlock] at h
  | cons bs1 ss1' =>
      cases ss2 with
      | nil =>
          cases bs1 with
          | nil => simp [encStmts, encBlocks] at h
          | cons b1 bs1' =>
              cases b1 with
              | mk t1 ps1 ss1'' =>
                  simp [encStmts, encBlocks, encBlock] at h
      | cons bs2 ss2' =>
          simp only [encStmts, List.cons_append, List.append_assoc,
            List.cons.injEq, true_and] at h
          obtain ⟨hbs, hrest⟩ := encBlocks_pc bs1 bs2 _ _ h
          obtain ⟨hss, hr⟩ := encStmtsRest_pc ss1' ss2' r1 r2 hrest
          exact ⟨by rw [hbs, hss], hr⟩

theorem encStmtsRest_pc (ss1 ss2 : TStmts) (r1 r2 : List Nat)
    (h : encStmtsRest ss1 ++ r1 = encStmtsRest ss2 ++ r2) :
    ss1 = ss2 ∧ r1 = r2 := by
  cases ss1 with
  | nil =>
      cases ss2 with
      | nil =>
          simp only [encStmtsRest, List.cons_append, List.nil_append,
            List.cons.injEq, true_and] at h
          exact ⟨rfl, h⟩
      | cons bs2 ss2' =>
          simp only [encStmtsRest, List.cons_append, List.nil_append,
            List.append_assoc, List.cons.injEq] at h
          omega
  | cons bs1 ss1' =>
      cases ss2 with
      | nil =>
          simp only [encStmtsRest, List.cons_append, List.nil_append,
            List.append_assoc, List.cons.injEq] at h
          omega
      | cons bs2 ss2' =>
          simp only [encStmtsRest, List.cons_append, List.append_assoc,
            List.cons.injEq, true_and] at h
          obtain ⟨hbs, hrest⟩ := encBlocks_pc bs1 bs2 _ _ h
          obtain ⟨hss, hr⟩ := encStmtsRest_pc ss1' ss2' r1 r2 hrest
          exact ⟨by rw [hbs, hss], hr⟩

end

end EntryTurbo

namespace EntryTurbo

theorem encBlocks_inj (bs1 bs2 : TBlocks) (h : encBlocks bs1 = encBlocks bs2) :
    bs1 = bs2 := by
  have hpc := encBlocks_pc bs1 bs2 [] [] (by simp [h])
  exact hpc.1

def cacheKeyV2 (blocks : TBlocks) (objectId : List Nat) : List Nat :=
  encBlocks blocks ++ objectId

theorem cacheKeyV2_inj_same_owner (T1 T2 : TBlocks) (o : List Nat)
    (h : cacheKeyV2 T1 o = cacheKeyV2 T2 o) : T1 = T2 := by
  unfold cacheKeyV2 at h
  exact encBlocks_inj _ _ (List.append_cancel_right h)

structure CacheState where
  entries : List (List Nat × Nat)
  nextId : Nat
  compileCount : Nat
  deriving Repr, DecidableEq

def CacheState.empty : CacheState := ⟨[], 0, 0⟩

def compileThreadV2 (blocks : TBlocks) (objectId : List Nat)
    (st : CacheState) : Nat × CacheState :=
  let key := cacheKeyV2 blocks objectId
  match st.entries.lookup key with
  | some fn => (fn, st)
  | none =>
      (st.nextId,
        ⟨st.entries ++ [(key, st.nextId)], st.nextId + 1, st.compileCount + 1⟩)

def CacheWF (st : CacheState) : Prop :=
  (∀ e ∈ st.entries, e.2 < st.nextId) ∧ (st.entries.map Prod.snd).Nodup

theorem lookup_some_mem {l : List (List Nat × Nat)} {k : List Nat} {v : Nat}
    (h : l.lookup k = some v) : (k, v) ∈ l := by
  induction l with
  | nil => simp at h
  | cons e t ih =>
      obtain ⟨ek, ev⟩ := e
      by_cases hk : (k == ek)
      · simp only [List.lookup_cons, hk] at h
        cases h
        have hkk : k = ek := beq_iff_eq.mp hk
        subst hkk
        exact List.mem_cons_self _ _
      · rw [Bool.not_eq_true] at hk
        simp only [List.lookup_cons, hk] at h
        right
        exact ih h

theorem lookup_append_left {l1 l2 : List (List Nat × Nat)} {k : List Nat}
    {v : Nat} (h : l1.lookup k = some v) : (l1 ++ l2).lookup k = some v := by
  induction l1 with
  | nil => simp at h
  | cons e t ih =>
      obtain ⟨ek, ev⟩ := e
      rw [List.cons_append]
      by_cases hk : (k == ek)
      · simp only [List.lookup_cons, hk] at h ⊢
        exact h
      · rw [Bool.not_eq_true] at hk
        simp only [List.lookup_cons, hk] at h ⊢
        exact ih h

theorem lookup_append_of_none {l : List (List Nat × Nat)} {k : List Nat}
    {v : Nat} (h : l.lookup k = none) :
    (l ++ [(k, v)]).lookup k = some v := by
  induction l with
  | nil => simp [List.lookup_cons]
  | cons e t ih =>
      obtain ⟨ek, ev⟩ := e
      rw [List.cons_append]
      by_cases hk : (k == ek)
      · simp only [List.lookup_cons, hk] at h
        exact Option.noConfusion h
      · rw [Bool.not_eq_true] at hk
        simp only [List.lookup_cons, hk] at h ⊢
        exact ih h

theorem lookup_append_singleton_ne {l : List (List Nat × Nat)}
    {k k' : List Nat} {v v' : Nat} (hne : k ≠ k')
    (h : (l ++ [(k', v')]).lookup k = some v) : l.lookup k = some v := by
  induction l with
  | nil =>
      rw [List.nil_append] at h
      have hb : (k == k') = false := by simpa using hne
      simp only [List.lookup_cons, hb] at h
      simp at h
  | cons e t ih =>
      obtain ⟨ek, ev⟩ := e
      rw [List.cons_append] at h
      by_cases hk : (k == ek)
      · simp only [List.lookup_cons, hk] at h ⊢
        exact h
      · rw [Bool.not_eq_true] at hk
        simp only [List.lookup_cons, hk] at h ⊢
        exact ih h

theorem lookup_distinct_ids {l : List (List Nat × Nat)}
    (hnd : (l.map Prod.snd).Nodup) {k1 k2 : List Nat} {v1 v2 : Nat}
    (hne : k1 ≠ k2) (h1 : l.lookup k1 = some v1)
    (h2 : l.lookup k2 = some v2) : v1 ≠ v2 := by
  induction l with
  | nil => simp at h1
  | cons e t ih =>
      obtain ⟨ek, ev⟩ := e
      rw [List.map_cons, List.nodup_cons] at hnd
      by_cases hk1 : (k1 == ek) <;> by_cases hk2 : (k2 == ek)
      · exact absurd (beq_iff_eq.mp hk1 ▸ (beq_iff_eq.mp hk2).symm) hne
      · rw [Bool.not_eq_true] at hk2
        simp only [List.lookup_cons, hk1] at h1
        simp only [List.lookup_cons, hk2] at h2
        cases h1
        intro hv
        apply hnd.1
        rw [hv]
        have hmem := lookup_some_mem (k := k2) h2
        simpa using List.mem_map_of_mem Prod.snd hmem
      · rw [Bool.not_eq_true] at hk1
        simp only [List.lookup_cons, hk1] at h1
        simp only [List.lookup_cons, hk2] at h2
        cases h2
        intro hv
        apply hnd.1
        rw [← hv]
        have hmem := lookup_some_mem (k := k1) h1
        simpa using List.mem_map_of_mem Prod.snd hmem
      · rw [Bool.not_eq_true] at hk1
        rw [Bool.not_eq_true] at hk2
        simp only [List.lookup_cons, hk1] at h1
        simp only [List.lookup_cons, hk2] at h2
        exact ih hnd.2 h1 h2

end EntryTurbo

namespace EntryTurbo

theorem compileThreadV2_cached (T : TBlocks) (o : List Nat) (st : CacheState) :
    compileThreadV2 T o (compileThreadV2 T o st).2
      = ((compileThreadV2 T o st).1, (compileThreadV2 T o st).2) := by
  unfold compileThreadV2
  cases hl : st.entries.lookup (cacheKeyV2 T o) with
  | some fn => simp [hl]
  | none =>
      simp only [hl]
      rw [lookup_append_of_none hl]

theorem compileThreadV2_wf (T : TBlocks) (o : List Nat) (st : CacheState)
    (hwf : CacheWF st) : CacheWF (compileThreadV2 T o st).2 := by
  unfold compileThreadV2
  cases hl : st.entries.lookup (cacheKeyV2 T o) with
  | some fn =>
      simp only [hl]
      exact hwf
  | none =>
      simp only [hl]
      constructor
      · intro e he
        simp only [List.mem_append, List.mem_singleton] at he
        cases he with
        | inl hin => exact Nat.lt_succ_of_lt (hwf.1 e hin)
        | inr heq => rw [heq]; exact Nat.lt_succ_self _
      · simp only [List.map_append, List.map_cons, List.map_nil]
        rw [List.nodup_append]
        refine ⟨hwf.2, List.nodup_singleton _, ?_⟩
        intro a ha hb
        simp only [List.mem_singleton] at hb
        rw [hb] at ha
        obtain ⟨e, hin, hsnd⟩ := List.mem_map.mp ha
        have := hwf.1 e hin
        omega

theorem compileThreadV2_artifact_lt (T : TBlocks) (o : List Nat)
    (st : CacheState) (hwf : CacheWF st) :
    (compileThreadV2 T o st).1 < (compileThreadV2 T o st).2.nextId := by
  unfold compileThreadV2
  cases hl : st.entries.lookup (cacheKeyV2 T o) with
  | some fn =>
      simp only [hl]
      exact hwf.1 _ (lookup_some_mem hl)
  | none =>
      simp only [hl]
      exact Nat.lt_succ_self _

theorem compileThreadV2_distinct (T1 T2 : TBlocks) (o : List Nat)
    (st : CacheState) (hwf : CacheWF st) (hne : T1 ≠ T2) :
    (compileThreadV2 T2 o (compileThreadV2 T1 o st).2).1
      ≠ (compileThreadV2 T1 o st).1 := by
  have hkey : cacheKeyV2 T1 o ≠ cacheKeyV2 T2 o := by
    intro hk
    exact hne (cacheKeyV2_inj_same_owner T1 T2 o hk)
  unfold compileThreadV2
  cases hl1 : st.entries.lookup (cacheKeyV2 T1 o) with
  | some a1 =>
      simp only [hl1]
      cases hl2 : st.entries.lookup (cacheKeyV2 T2 o) with
      | some a2 =>
          simp only [hl2]
          exact lookup_distinct_ids hwf.2 (fun h => hkey h.symm) hl2 hl1
      | none =>
          simp only [hl2]
          have := hwf.1 _ (lookup_some_mem hl1)
          omega
  | none =>
      simp only [hl1]
      cases hl2 : (st.entries ++ [(cacheKeyV2 T1 o, st.nextId)]).lookup
          (cacheKeyV2 T2 o) with
      | some a2 =>
          simp only [hl2]
          have hold := lookup_append_singleton_ne hkey.symm hl2
          have := hwf.1 _ (lookup_some_mem hold)
          omega
      | none =>
          simp only [hl2]
          omega

def runCall (st : CacheState) (c : TBlocks × List Nat) : CacheState :=
  (compileThreadV2 c.1 c.2 st).2

def compilesFor (k : List Nat) : List (TBlocks × List Nat) → CacheState → Nat
  | [], _ => 0
  | c :: rest, st =>
      (if cacheKeyV2 c.1 c.2 = k
          ∧ st.entries.lookup (cacheKeyV2 c.1 c.2) = none
       then 1 else 0) + compilesFor k rest (runCall st c)

theorem runCall_preserves_lookup {st : CacheState} {k : List Nat} {v : Nat}
    (c : TBlocks × List Nat) (h : st.entries.lookup k = some v) :
    ∃ v', (runCall st c).entries.lookup k = some v' := by
  unfold runCall compileThreadV2
  cases hl : st.entries.lookup (cacheKeyV2 c.1 c.2) with
  | some fn =>
      simp only [hl]
      exact ⟨v, h⟩
  | none =>
      simp only [hl]
      exact ⟨v, lookup_append_left h⟩

theorem compilesFor_zero (k : List Nat) :
    ∀ (calls : List (TBlocks × List Nat)) (st : CacheState),
      (∃ v, st.entries.lookup k = some v) → compilesFor k calls st = 0 := by
  intro calls
  induction calls with
  | nil => intro st _; rfl
  | cons c rest ih =>
      intro st hsome
      obtain ⟨v, hv⟩ := hsome
      unfold compilesFor
      rw [ih (runCall st c) (runCall_preserves_lookup c hv)]
      by_cases hk : cacheKeyV2 c.1 c.2 = k
      · rw [if_neg]
        intro hcond
        rw [hk, hv] at hcond
        exact Option.noConfusion hcond.2
      · rw [if_neg]
        intro hcond
        exact hk hcond.1

theorem compilesFor_le_one (k : List Nat) :
    ∀ (calls : List (TBlocks × List Nat)) (st : CacheState),
      compilesFor k calls st ≤ 1 := by
  intro calls
  induction calls with
  | nil => intro st; exact Nat.zero_le 1
  | cons c rest ih =>
      intro st
      unfold compilesFor
      by_cases hcond : cacheKeyV2 c.1 c.2 = k
          ∧ st.entries.lookup (cacheKeyV2 c.1 c.2) = none
      · rw [if_pos hcond]
        have hafter : (runCall st c).entries.lookup k = some st.nextId := by
          unfold runCall compileThreadV2
          cases hl : st.entries.lookup (cacheKeyV2 c.1 c.2) with
          | some fn => rw [hl] at hcond; exact Option.noConfusion hcond.2
          | none =>
              simp only [hl]
              rw [← hcond.1]
              exact lookup_append_of_none hl
        rw [compilesFor_zero k rest (runCall st c) ⟨st.nextId, hafter⟩]
      · rw [if_neg hcond]
        simpa using ih (runCall st c)

end EntryTurbo

namespace EntryTurbo

theorem cacheWF_empty : CacheWF CacheState.empty := by
  constructor
  · intro e he
    simp [CacheState.empty] at he
  · simp [CacheState.empty]

def sampleT1 : TBlocks := .cons (.mk [119] .nil .nil) .nil

def sampleT2 : TBlocks :=
  .cons (.mk [104] (.cons (.pnum 10) .nil) .nil) .nil

/-- Claim C5: calling `compileThread` twice with the same block tree and
owner returns the identical cached artifact with the cache state
unchanged (so no second compilation occurs); over any sequence of calls,
at most one compilation is performed for each distinct
`(blocks, objectId)` cache key for the lifetime of the cache; and a
structurally different tree for the same owner yields a different
artifact, because the key — the `JSON.stringify` structural fingerprint
of the blocks concatenated with the owner id — is injective in the tree
for a fixed owner.  Well-formedness of the cache state (artifact ids
below the freshness counter and pairwise distinct) holds for the empty
cache and is preserved by every call. -/
theorem c5_compile_cache (T T1 T2 : TBlocks) (o : List Nat)
    (st : CacheState) (calls : List (TBlocks × List Nat))
    (hwf : CacheWF st) (hne : T1 ≠ T2) :
    compileThreadV2 T o (compileThreadV2 T o st).2
        = ((compileThreadV2 T o st).1, (compileThreadV2 T o st).2) ∧
    compilesFor (cacheKeyV2 T o) calls st ≤ 1 ∧
    (compileThreadV2 T2 o (compileThreadV2 T1 o st).2).1
        ≠ (compileThreadV2 T1 o st).1 :=
  ⟨compileThreadV2_cached T o st, compilesFor_le_one _ calls st,
    compileThreadV2_distinct T1 T2 o st hwf hne⟩

theorem c5_compile_cache_witness :
    (CacheWF CacheState.empty ∧ sampleT1 ≠ sampleT2) ∧
    (compileThreadV2 sampleT1 [111]
        (compileThreadV2 sampleT1 [111] CacheState.empty).2
      = ((compileThreadV2 sampleT1 [111] CacheState.empty).1,
          (compileThreadV2 sampleT1 [111] CacheState.empty).2) ∧
      compilesFor (cacheKeyV2 sampleT1 [111])
        [(sampleT1, [111]), (sampleT1, [111])] CacheState.empty ≤ 1 ∧
      (compileThreadV2 sampleT2 [111]
          (compileThreadV2 sampleT1 [111] CacheState.empty).2).1
        ≠ (compileThreadV2 sampleT1 [111] CacheState.empty).1) :=
  ⟨⟨cacheWF_empty, by decide⟩,
    c5_compile_cache sampleT1 sampleT1 sampleT2 [111] CacheState.empty
      [(sampleT1, [111]), (sampleT1, [111])] cacheWF_empty (by decide)⟩

end EntryTurbo
